import Mathlib

/-!
# mysh: job control and process execution

A shallow embedding of `src/mysh.c`.  The process-wide globals (`jobId`, `head`,
`isBatchMode`) form one explicit `Shell` value; every system call the program makes is
appended to `Shell.trace`, so that "what was written", "was a blocking wait issued" and
"was a child created" are questions about the trace.  Whatever the operating system
decides (the results of `malloc`, `fork`, `open`, `execvp` and of every non-blocking
`waitpid`) is supplied by an `Env`.

Conventions.
* A C string is a `String` whose characters stand for the bytes before the NUL.
* A NULL-terminated `char *` vector of `len` entries is a `List String` (or a
  `List (Option String)` where the code overwrites entries with NULL).
* The linked list hanging off `head` is the `List ProcInfo` of its nodes in link order.
* `jobId` is an `Int` and `jobId++` is `+ 1`: this is the C increment as long as the
  counter is below `INT_MAX`; at `INT_MAX` the C increment overflows and has no defined
  result.  A theorem about the value of the counter states the bound it needs: a counter
  below `INT_MAX`, or at most 2^31 lines read since the fresh shell (a line launches at
  most one command).
* A line is what one `fgets` delivered.  Its tokens go into `char *buffer[MAX_LEN / 2]`:
  255 tokens and the terminator fit, and `loopBody` gives `Outcome.undefined` for a line
  of more tokens.
-/

namespace Mysh

/-! ## Constants and data -/

/-- The `MAX_LEN` constant: size of the line buffer and of `ProcInfo.line`. -/
def MAX_LEN : Nat := 512

/-- The `struct ProcInfo` record without its `next` link. -/
structure ProcInfo where
  jid : Int
  pid : Int
  line : String
  deriving DecidableEq, Repr

/-- Options of a `waitpid` call: `WNOHANG`, or `WCONTINUED | WUNTRACED` (which blocks). -/
inductive WaitOptions where
  | nohang
  | blocking
  deriving DecidableEq, Repr

/-- System calls recorded in the trace. `write 1` is standard output, `write 2` the
error stream. -/
inductive Event where
  | write (fd : Nat) (text : String)
  | waitpid (pid : Int) (options : WaitOptions)
  | fork (ret : Int)
  | fclose
  | close (fd : Nat)
  | openFile (path : String) (ret : Int)
  | execvp (file : String) (argv : List String)
  deriving DecidableEq, Repr

/-- The globals of the program, and the system calls made so far. -/
structure Shell where
  isBatchMode : Int
  jobId : Int
  head : List ProcInfo
  trace : List Event
  deriving DecidableEq, Repr

/-- What a non-blocking `waitpid` reports: its return value and `WIFEXITED(status)`. -/
structure WaitOutcome where
  ret : Int
  exited : Bool
  deriving DecidableEq, Repr

/-- The operating system's answers during one loop iteration.
`malloc` is `none` for NULL, else the indeterminate `jid` and `pid` of the fresh block;
`poll k` is the outcome of the `k`-th `waitpid(.., WNOHANG)` of a `jobs` command;
`execReturns` says whether `execvp` came back (it only comes back on failure). -/
structure Env where
  malloc : Option (Int × Int)
  forkRet : Int
  openRet : Int
  execReturns : Bool
  poll : Nat → WaitOutcome

/-- How a call ends: control returns, the process called `exit(code)`, `execvp` replaced
the process image, or the C code had no defined behaviour (a NULL was dereferenced). -/
inductive Outcome where
  | running (s : Shell)
  | exited (code : Int) (s : Shell)
  | replaced (s : Shell)
  | undefined
  deriving DecidableEq, Repr

/-- Append one system call to the trace. -/
def Shell.emit (s : Shell) (e : Event) : Shell :=
  { s with trace := s.trace ++ [e] }

/-- The state at program start: `jobId = -1`, `head = NULL`. -/
def Shell.fresh (batch : Int) : Shell :=
  { isBatchMode := batch, jobId := -1, head := [], trace := [] }

/-- Texts written to file descriptor `fd`, in order. -/
def written (fd : Nat) : List Event → List String
  | [] => []
  | Event.write fd2 text :: es => if fd2 = fd then text :: written fd es else written fd es
  | _ :: es => written fd es

/-- Pids on which a blocking `waitpid` was issued, in order. -/
def blockingWaits : List Event → List Int
  | [] => []
  | Event.waitpid pid WaitOptions.blocking :: es => pid :: blockingWaits es
  | _ :: es => blockingWaits es

/-- The `removeBgProcess` function: unlink the first node whose pid matches; nothing
happens when no node matches. The head case and the search loop of the C code are the
two arms of the recursion. -/
def removeBgProcess (pid : Int) : List ProcInfo → List ProcInfo
  | [] => []
  | curr :: rest => if curr.pid = pid then rest else curr :: removeBgProcess pid rest

/-- The `addBgProcess` function: walk to the last node and link `n` behind it. -/
def addBgProcess (n : ProcInfo) : List ProcInfo → List ProcInfo
  | [] => [n]
  | current :: rest => current :: addBgProcess n rest

/-- The `freeResources` function: free every node, leaving `head = NULL`. -/
def freeResources (s : Shell) : Shell :=
  { s with head := [] }

/-! ## `wait` (lines 83-115) -/

/-- The `snprintf(temp, size, ...)` call: the formatted text cut to `size - 1` bytes. -/
def snprintf (size : Nat) (text : String) : String :=
  String.mk (text.data.take (size - 1))

/-- The digit loop of `waitCommand`: true when some character is below `'0'` or above
`'9'` (the loop returns at the first such character). -/
def hasNonDigit : List Char → Bool
  | [] => false
  | c :: cs => if c.toNat < 48 ∨ c.toNat > 57 then true else hasNonDigit cs

/-- Reduce an integer to the range of a 32-bit `int` (two's complement). -/
def wrapInt32 (n : Int) : Int :=
  (n + 2147483648) % 4294967296 - 2147483648

/-- Digit accumulation of `atoi`: stops at the first non-digit. -/
def atoiDigits : List Char → Nat → Nat
  | [], acc => acc
  | c :: cs, acc =>
    if 48 ≤ c.toNat ∧ c.toNat ≤ 57 then atoiDigits cs (acc * 10 + (c.toNat - 48)) else acc

/-- The C library `isspace`: space, and the controls `\t \n \v \f \r`. -/
def isspace (c : Char) : Bool :=
  c.toNat = 32 ∨ (9 ≤ c.toNat ∧ c.toNat ≤ 13)

/-- The C library `strtol` in base 10, as `atoi` calls it: skip white space, take an
optional sign, read decimal digits.  The result is a 64-bit `long`: a value above
`LONG_MAX` is returned as `LONG_MAX`, a value below `LONG_MIN` as `LONG_MIN`. -/
def strtol (nptr : String) : Int :=
  match nptr.data.dropWhile isspace with
  | '-' :: cs => max (-(atoiDigits cs 0 : Int)) (-9223372036854775808)
  | '+' :: cs => min (atoiDigits cs 0 : Int) 9223372036854775807
  | cs => min (atoiDigits cs 0 : Int) 9223372036854775807

/-- The C library `atoi`, which is `(int) strtol(num, NULL, 10)`: the conversion to `int`
keeps the low 32 bits, so a value outside the `int` range wraps modulo 2^32. -/
def atoi (num : String) : Int :=
  wrapInt32 (strtol num)

/-- The search loop of `waitCommand`: the first node whose jid is `userJid`. -/
def findJid (userJid : Int) : List ProcInfo → Option ProcInfo
  | [] => none
  | current :: rest => if current.jid = userJid then some current else findJid userJid rest

/-- The `waitCommand` function. -/
def waitCommand (num : String) (s : Shell) : Shell :=
  let temp := snprintf 1000 ("Invalid JID " ++ num ++ "\n")
  if hasNonDigit num.data then s.emit (Event.write 2 temp)
  else
    let userJid := atoi num
    if userJid > s.jobId then s.emit (Event.write 2 temp)
    else
      match findJid userJid s.head with
      | some current =>
        (s.emit (Event.waitpid current.pid WaitOptions.blocking)).emit
          (Event.write 1 (snprintf 1000 ("JID " ++ num ++ " terminated\n")))
      | none => s.emit (Event.write 1 (snprintf 1000 ("JID " ++ num ++ " terminated\n")))

/-! ## `jobs` (lines 117-137) -/

/-- The first loop of `jobsCommand`. `todo` is the chain still to be walked from `curr`,
`k` counts the polls made. The walk follows the links as they were on entry: a removal
only redirects the link of a node at or before `curr`, and `curr = curr->next` after
`curr` itself was freed reads the link the freed node still holds. -/
def reapLoop (poll : Nat → WaitOutcome) : Nat → List ProcInfo → Shell → Shell
  | _, [], s => s
  | k, curr :: todo, s =>
    let s1 := s.emit (Event.waitpid curr.pid WaitOptions.nohang)
    let s2 :=
      if (poll k).ret > 0 then
        if (poll k).exited then { s1 with head := removeBgProcess curr.pid s1.head } else s1
      else s1
    reapLoop poll (k + 1) todo s2

/-- The text of one `jobs` line: `snprintf(temp, 1000, "%d : %s\n", jid, line)`. -/
def jobLine (p : ProcInfo) : String :=
  snprintf 1000 (toString p.jid ++ " : " ++ p.line ++ "\n")

/-- The second loop of `jobsCommand`: one line per node. -/
def printLoop : List ProcInfo → Shell → Shell
  | [], s => s
  | curr :: rest, s => printLoop rest (s.emit (Event.write 1 (jobLine curr)))

/-- The `jobsCommand` function. -/
def jobsCommand (poll : Nat → WaitOutcome) (s : Shell) : Shell :=
  let s1 := reapLoop poll 0 s.head s
  printLoop s1.head s1

/-! ## Redirection (lines 139-166) -/

/-- What `isRedirection` leaves behind: the returned value, the vector (entries may have
become NULL) and the texts written to the error stream. -/
structure Redir where
  ret : Int
  cmds : List (Option String)
  err : List String
  deriving DecidableEq, Repr

/-- The `for` loop of `isRedirection`, `fuel = len - i` iterations from index `i`.
Reading an entry that is NULL or past the vector has no defined result (`none`). -/
def isRedirectionLoop (len : Nat) : Nat → Nat → Nat → List (Option String) → Option Redir
  | 0, _, countRedirection, cmds => some ⟨if countRedirection = 0 then 0 else 1, cmds, []⟩
  | fuel + 1, i, countRedirection, cmds =>
    match cmds[i]? with
    | some (some tok) =>
      if tok = ">" then
        if countRedirection + 1 > 1 then
          some ⟨-1, cmds, ["Redirect Error: More than 1 >\n"]⟩
        else if (len : Int) - i > 2 then
          some ⟨-1, cmds, ["Redirect Error: args > 1 after >\n"]⟩
        else if (i : Int) - 1 < 0 ∨ i + 1 ≥ len then
          some ⟨-1, cmds.set i none, ["Redirect Error: No file or command\n"]⟩
        else isRedirectionLoop len fuel (i + 1) (countRedirection + 1) (cmds.set i none)
      else isRedirectionLoop len fuel (i + 1) countRedirection cmds
    | _ => none

/-- The `isRedirection` function. -/
def isRedirection (cmds : List (Option String)) (len : Nat) : Option Redir :=
  isRedirectionLoop len len 0 0 cmds

/-! ## Dispatch (lines 168-229) -/

/-- Write through a pointer to a node: apply `f` to the node at position `k`. -/
def modifyNode (f : ProcInfo → ProcInfo) : Nat → List ProcInfo → List ProcInfo
  | _, [] => []
  | 0, p :: ps => f p :: ps
  | k + 1, p :: ps => p :: modifyNode f k ps

/-- The argument vector `execvp` sees: the entries before the first NULL. -/
def argvOf : List (Option String) → List String
  | some a :: rest => a :: argvOf rest
  | _ => []

/-- The common ending `if (isBatchMode == 1) fclose(fileInput); freeResources(); exit(code)`. -/
def closeFreeExit (code : Int) (s : Shell) : Outcome :=
  Outcome.exited code (freeResources (if s.isBatchMode = 1 then s.emit Event.fclose else s))

/-- Lines 210-218: `execvp(cmds[0], cmds)` and, if it returns, the "Command not found"
report and `exit(0)`. -/
def execStep (cmds : List (Option String)) (env : Env) (s : Shell) : Outcome :=
  match cmds with
  | some file :: _ =>
    let s1 := s.emit (Event.execvp file (argvOf cmds))
    if env.execReturns then
      closeFreeExit 0
        ((s1.emit (Event.write 2 file)).emit (Event.write 2 ": Command not found\n"))
    else Outcome.replaced s1
  | _ => Outcome.undefined

/-- Lines 194-218: what the forked child does. -/
def childBranch (cmds : List String) (len : Nat) (env : Env) (s : Shell) : Outcome :=
  match isRedirection (cmds.map some) len with
  | none => Outcome.undefined
  | some r =>
    let s1 := r.err.foldl (fun st msg => st.emit (Event.write 2 msg)) s
    if r.ret = -1 then closeFreeExit 1 s1
    else if r.ret = 1 then
      match r.cmds[len - 1]? with
      | some (some path) =>
        let s2 := (s1.emit (Event.close 1)).emit (Event.openFile path env.openRet)
        if env.openRet = -1 then closeFreeExit 0 s2 else execStep r.cmds env s2
      | _ => Outcome.undefined
    else execStep r.cmds env s1

/-- Lines 183-228 of `executeCommand`: count the job, fork, and run the child or the
parent side. `cur` is the position in the registry of the node the pointer `cur` refers
to (`none` for NULL). The increment is taken in `Int`; it is the C `jobId++` for a
counter below `INT_MAX`. -/
def launch (cmds : List String) (len : Nat) (cur : Option Nat) (env : Env)
    (s : Shell) : Outcome :=
  let s1 := { s with jobId := s.jobId + 1 }
  let s2 :=
    match cur with
    | some k => { s1 with head := modifyNode (fun p => { p with jid := s1.jobId }) k s1.head }
    | none => s1
  let processId := env.forkRet
  let s3 := s2.emit (Event.fork processId)
  if processId < 0 then
    let s4 := freeResources (s3.emit (Event.write 2 "fork failed\n"))
    Outcome.exited 1 (if s4.isBatchMode = 1 then s4.emit Event.fclose else s4)
  else if processId = 0 then
    childBranch cmds len env s3
  else
    match cur with
    | some k =>
      Outcome.running
        { s3 with head := modifyNode (fun p => { p with pid := processId }) k s3.head }
    | none => Outcome.running (s3.emit (Event.waitpid processId WaitOptions.blocking))

/-- The `executeCommand` function: the three built-in forms, else `launch`. -/
def executeCommand (cmds : List String) (len : Nat) (cur : Option Nat) (env : Env)
    (s : Shell) : Outcome :=
  if cmds[0]? = some "exit" ∧ len = 1 then
    closeFreeExit 0 s
  else if cmds[0]? = some "wait" ∧ len ≥ 2 then
    match cmds[1]? with
    | some num => Outcome.running (waitCommand num s)
    | none => Outcome.undefined
  else if cmds[0]? = some "jobs" then
    Outcome.running (jobsCommand env.poll s)
  else launch cmds len cur env s

/-! ## The read loop (lines 262-322) -/

/-- The delimiter set of `strtok(line, " \n\t")`. -/
def isDelim (c : Char) : Bool :=
  c = ' ' ∨ c = '\n' ∨ c = '\t'

/-- Successive `strtok` calls: `tok` is the token being read; empty tokens never arise. -/
def strtokLoop : List Char → List Char → List String
  | [], tok => if tok = [] then [] else [String.mk tok]
  | c :: cs, tok =>
    if isDelim c then
      if tok = [] then strtokLoop cs [] else String.mk tok :: strtokLoop cs []
    else strtokLoop cs (tok ++ [c])

/-- Lines 278-284: the tokens `strtok` finds in a line, in order. They are what the loop
stores in `buffer[0 .. cmdNum-1]` when they fit the array; `loopBody` checks the fit. -/
def tokenize (line : String) : List String :=
  strtokLoop line.data []

/-- Lines 305-309: `strcpy` of `buffer[0]`, then `strcat` of a space and `buffer[i]`
for `i = 1 .. cmdNum - 2`. -/
def commandText (buffer : List String) (cmdNum : Nat) : String :=
  ((buffer.take (cmdNum - 1)).drop 1).foldl (fun line tok => line ++ " " ++ tok)
    (buffer.headD "")

/-- Lines 286-315: what the loop does with the tokens of one line, once they are in
`buffer` with the NULL behind them. -/
def dispatch (buffer : List String) (env : Env) (s : Shell) : Outcome :=
  let cmdNum := buffer.length
  if cmdNum ≠ 0 then
    if buffer[0]? = some "&" then
      Outcome.exited 0 (freeResources (s.emit (Event.write 1 "exit\n")))
    else if cmdNum > 1 ∧ buffer[0]? ≠ some "&" ∧ buffer[cmdNum - 1]? = some "&"
        ∧ buffer[0]? ≠ some "jobs" ∧ buffer[0]? ≠ some "wait" then
      match env.malloc with
      | none => Outcome.exited 1 (freeResources s)
      | some (j, p) =>
        let current : ProcInfo := ⟨j, p, commandText buffer cmdNum⟩
        let s1 := { s with head := addBgProcess current s.head }
        executeCommand (buffer.take (cmdNum - 1)) (cmdNum - 1) (some s.head.length) env s1
    else executeCommand buffer cmdNum none env s
  else Outcome.running s

/-- One pass through the body of `while (1)` for a line that `fgets` delivered (at most
`MAX_LEN - 1` characters).  The tokens go into `char *buffer[MAX_LEN / 2]`, which holds at
most 255 of them and the NULL after the last: with 256 tokens or more the code stores past
the end of the array, and nothing is defined from there on. -/
def loopBody (line : String) (env : Env) (s : Shell) : Outcome :=
  let s1 := if s.isBatchMode = 0 then s.emit (Event.write 1 "mysh> ") else s
  let s2 := if s1.isBatchMode = 1 then s1.emit (Event.write 1 line) else s1
  if MAX_LEN / 2 ≤ (tokenize line).length then Outcome.undefined
  else dispatch (tokenize line) env s2

/-- The loop over the lines read so far; `running` means the next `fgets` is due. -/
def runLines : List (String × Env) → Shell → Outcome
  | [], s => Outcome.running s
  | (line, env) :: rest, s =>
    match loopBody line env s with
    | Outcome.running s1 => runLines rest s1
    | o => o

/-- The loop of `main` on an input that ends after the given lines: the last `fgets`
returns NULL, the batch file is closed, the registry freed and `main` returns 0. -/
def mainLoop (input : List (String × Env)) (s : Shell) : Outcome :=
  match runLines input s with
  | Outcome.running s1 =>
    closeFreeExit 0 (if s1.isBatchMode = 0 then s1.emit (Event.write 1 "mysh> ") else s1)
  | o => o

/-! ## Specification-side definitions -/

/-- The state an outcome carries, if any. -/
def Outcome.state? : Outcome → Option Shell
  | Outcome.running s => some s
  | Outcome.exited _ s => some s
  | Outcome.replaced s => some s
  | Outcome.undefined => none

/-- The three built-in forms `executeCommand` handles without forking: `exit` alone,
`wait` with at least one argument, and `jobs`. -/
def IsBuiltin (cmds : List String) : Prop :=
  (cmds[0]? = some "exit" ∧ cmds.length = 1) ∨ (cmds[0]? = some "wait" ∧ 2 ≤ cmds.length)
    ∨ cmds[0]? = some "jobs"

/-- The outcome of the validator on a vector whose first `>` follows `pre`. -/
def redirAt (pre post : List String) : Redir :=
  if 2 ≤ post.length then
    ⟨-1, (pre ++ ">" :: post).map some, ["Redirect Error: args > 1 after >\n"]⟩
  else if pre = [] ∨ post = [] then
    ⟨-1, pre.map some ++ none :: post.map some, ["Redirect Error: No file or command\n"]⟩
  else if post = [">"] then
    ⟨-1, pre.map some ++ none :: post.map some, ["Redirect Error: More than 1 >\n"]⟩
  else ⟨1, pre.map some ++ none :: post.map some, []⟩

/-- Exactly one `>`, at index `len - 2`, in a vector of at least three tokens. -/
def SingleRedirect (toks : List String) : Prop :=
  toks.count ">" = 1 ∧ 3 ≤ toks.length ∧ toks[toks.length - 2]? = some ">"

/-- The decimal value of a digit string, most significant digit first. -/
def decimalValue (num : String) : Nat :=
  num.data.foldl (fun v c => 10 * v + (c.toNat - 48)) 0

/-- A record as the C struct can hold it: `jid` is an `int`, `line` fits `char[512]`. -/
def ProcInfo.Representable (p : ProcInfo) : Prop :=
  -2147483648 ≤ p.jid ∧ p.jid ≤ 2147483647 ∧ p.line.length < MAX_LEN

/-- A line as the spec calls background-qualifying: more than one token, the last token
exactly `&`, the first token neither `jobs` nor `wait`. -/
def BackgroundQualifying (buffer : List String) : Prop :=
  1 < buffer.length ∧ buffer[buffer.length - 1]? = some "&"
    ∧ buffer[0]? ≠ some "jobs" ∧ buffer[0]? ≠ some "wait"

/-- A background-qualifying line that the loop does launch: it is not the kill switch
(first token `&`) and not `exit &`. -/
def Background (buffer : List String) : Prop :=
  BackgroundQualifying buffer ∧ buffer[0]? ≠ some "&" ∧ buffer ≠ ["exit", "&"]

/-- Whether the `k`-th non-blocking check saw that the process has exited:
`waitpid(..) > 0` and `WIFEXITED(status)`. -/
def observedExit (poll : Nat → WaitOutcome) (k : Nat) : Bool :=
  decide (0 < (poll k).ret) && (poll k).exited

/-- The records whose own check did not see an exit, in their original order; the first
record of `l` is checked by poll number `k`. -/
def survivors (poll : Nat → WaitOutcome) (k : Nat) (l : List ProcInfo) : List ProcInfo :=
  ((l.enumFrom k).filter (fun ip => !observedExit poll ip.1)).map Prod.snd

/-- No record carries jid `j`, and the counter has passed `j`. -/
def Retired (j : Int) (s : Shell) : Prop :=
  j ≤ s.jobId ∧ ∀ q ∈ s.head, q.jid ≠ j

/-- The registry invariant: jids strictly increase along the list, each lies between 0
and the counter, and the counter is at least -1. -/
def JidsOrdered (s : Shell) : Prop :=
  List.Pairwise (fun a b => a < b) (s.head.map ProcInfo.jid)
    ∧ (∀ p ∈ s.head, 0 ≤ p.jid ∧ p.jid ≤ s.jobId) ∧ -1 ≤ s.jobId

instance (buffer : List String) : Decidable (BackgroundQualifying buffer) := by
  unfold BackgroundQualifying
  infer_instance

instance (buffer : List String) : Decidable (Background buffer) := by
  unfold Background
  infer_instance

instance (cmds : List String) : Decidable (IsBuiltin cmds) := by
  unfold IsBuiltin
  infer_instance

instance (p : ProcInfo) : Decidable p.Representable := by
  unfold ProcInfo.Representable
  infer_instance

instance (toks : List String) : Decidable (SingleRedirect toks) := by
  unfold SingleRedirect
  infer_instance

instance (j : Int) (s : Shell) : Decidable (Retired j s) := by
  unfold Retired
  infer_instance

/-! ## Sample data -/

/-- An operating system whose `malloc` and `fork` succeed (child pid 100), whose `open`
succeeds, whose `execvp` succeeds, and which reports every polled child as still running. -/
def sampleEnv : Env :=
  ⟨some (0, 0), 100, 3, false, fun _ => ⟨0, false⟩⟩

/-- An operating system like `sampleEnv` whose `fork` returns pid 5. -/
def envPid5 : Env :=
  ⟨some (0, 0), 5, 3, false, fun _ => ⟨0, false⟩⟩

/-- Checks of a `jobs` command where the second `waitpid` sees an exit and no other does. -/
def racePoll : Nat → WaitOutcome :=
  fun k => if k = 1 then ⟨5, true⟩ else ⟨0, false⟩

/-- Checks of a `jobs` command that all see the process as exited. -/
def exitedPoll : Nat → WaitOutcome :=
  fun _ => ⟨1, true⟩

/-- An operating system whose `malloc` returns NULL. -/
def failEnv : Env :=
  ⟨none, 100, 3, false, fun _ => ⟨0, false⟩⟩

/-- The shell after `sleep 1 &` was launched as job 0 with pid 100 (trace left out). -/
def oneJob : Shell :=
  ⟨0, 0, [⟨0, 100, "sleep 1"⟩], []⟩

/-- The registry after `sleep 1 &` and `sleep 2 &` with pids 100 and 101. -/
def twoJobs : Shell :=
  ⟨0, 1, [⟨0, 100, "sleep 1"⟩, ⟨1, 101, "sleep 2"⟩], []⟩

/-- The status checks of one `jobs`: the first finds its process running, the second
reports that process 101 has exited. -/
def secondExitedPoll : Nat → WaitOutcome :=
  fun k => if k = 1 then ⟨101, true⟩ else ⟨0, false⟩

/-! ## Redirection validator: evaluation -/

theorem isRedirectionLoop_skip (len : Nat) (cmds : List (Option String)) :
    ∀ (fuel i c : Nat),
      (∀ j, i ≤ j → j < i + fuel → ∃ t, cmds[j]? = some (some t) ∧ t ≠ ">") →
      ∀ m, isRedirectionLoop len (fuel + m) i c cmds
        = isRedirectionLoop len m (i + fuel) c cmds := by
  intro fuel
  induction fuel with
  | zero => intro i c _ m; simp
  | succ n ih =>
    intro i c h m
    obtain ⟨t, ht, hne⟩ := h i (Nat.le_refl i) (by omega)
    have e : n + 1 + m = (n + m) + 1 := by omega
    rw [e, isRedirectionLoop, ht]
    simp only [hne, if_false]
    rw [ih (i + 1) c (fun j h1 h2 => h j (by omega) (by omega)) m]
    congr 1
    omega

theorem getElem?_tokens_before (pre rest : List String) (h : ">" ∉ pre) (j : Nat)
    (hj : j < pre.length) :
    ∃ t, ((pre ++ rest).map some)[j]? = some (some t) ∧ t ≠ ">" := by
  refine ⟨pre[j], ?_, ?_⟩
  · simp [List.getElem?_append_left, hj]
  · intro e
    exact h (e ▸ List.getElem_mem hj)

theorem isRedirection_absent (toks : List String) (h : ">" ∉ toks) :
    isRedirection (toks.map some) toks.length = some ⟨0, toks.map some, []⟩ := by
  have := isRedirectionLoop_skip toks.length (toks.map some) toks.length 0 0
    (fun j _ hj => by
      have := getElem?_tokens_before toks [] h j (by omega)
      simpa using this) 0
  simp only [Nat.add_zero, Nat.zero_add] at this
  rw [isRedirection, this]
  rfl

theorem getElem?_tokens_at (pre : List (Option String)) (x : Option String)
    (post : List (Option String)) : (pre ++ x :: post)[pre.length]? = some x := by
  rw [List.getElem?_append_right (Nat.le_refl _)]
  simp

theorem isRedirection_first (pre post : List String) (h : ">" ∉ pre) :
    isRedirection ((pre ++ ">" :: post).map some) (pre ++ ">" :: post).length
      = some (redirAt pre post) := by
  have hskip := isRedirectionLoop_skip (pre ++ ">" :: post).length
    ((pre ++ ">" :: post).map some) pre.length 0 0
    (fun j _ hj => getElem?_tokens_before pre (">" :: post) h j (by omega)) (post.length + 1)
  have hlen : (pre ++ ">" :: post).length = pre.length + (post.length + 1) := by simp
  rw [isRedirection]
  conv_lhs => arg 2; rw [hlen]
  rw [hskip, Nat.zero_add]
  have hk : ((pre ++ ">" :: post).map some)[pre.length]? = some (some ">") := by
    have := getElem?_tokens_at (pre.map some) (some ">") (post.map some)
    simpa using this
  have hset : ((pre ++ ">" :: post).map some).set pre.length none
      = pre.map some ++ none :: post.map some := by
    simp [List.set_append_right]
  rw [isRedirectionLoop, hk]
  dsimp only
  rw [if_pos rfl, if_neg (by omega), hset]
  unfold redirAt
  by_cases h2 : 2 ≤ post.length
  · rw [if_pos (by rw [hlen]; push_cast; omega), if_pos h2]
  · rw [if_neg (by rw [hlen]; push_cast; omega), if_neg h2]
    by_cases h3 : pre = [] ∨ post = []
    · rw [if_pos h3, if_pos]
      rcases h3 with h3 | h3
      · left; simp [h3]
      · right; simp [h3]
    · have hpre : pre ≠ [] := fun e => h3 (Or.inl e)
      have hpost : post ≠ [] := fun e => h3 (Or.inr e)
      have hpl : 0 < pre.length := List.length_pos.mpr hpre
      have hql : post.length = 1 := by
        have := List.length_pos.mpr hpost
        omega
      rw [if_neg h3, if_neg (by rw [hlen]; omega)]
      obtain ⟨f, rfl⟩ := List.length_eq_one.mp hql
      have hk1 : (pre.map some ++ none :: [f].map some)[pre.length + 1]? = some (some f) := by
        rw [List.getElem?_append_right (by simp)]
        simp
      simp only [List.length_singleton]
      rw [isRedirectionLoop, hk1]
      dsimp only
      by_cases hf : f = ">"
      · rw [if_pos hf, if_pos (by omega), if_pos (by rw [hf])]
      · rw [if_neg hf, if_neg (by simpa using hf), isRedirectionLoop]
        rfl

theorem exists_first_redirect : ∀ (toks : List String), ">" ∈ toks →
    ∃ pre post, toks = pre ++ ">" :: post ∧ ">" ∉ pre := by
  intro toks
  induction toks with
  | nil => intro h; simp at h
  | cons t ts ih =>
    intro h
    by_cases e : t = ">"
    · exact ⟨[], ts, by simp [e], by simp⟩
    · have hts : ">" ∈ ts := by
        rcases List.mem_cons.mp h with h1 | h1
        · exact absurd h1.symm e
        · exact h1
      obtain ⟨pre, post, h1, h2⟩ := ih hts
      refine ⟨t :: pre, post, by simp [h1], ?_⟩
      intro hm
      rcases List.mem_cons.mp hm with h3 | h3
      · exact e h3.symm
      · exact h2 h3

theorem redirAt_ret (pre post : List String) :
    ((pre ≠ [] ∧ ∃ f, post = [f] ∧ f ≠ ">") ∧ (redirAt pre post).ret = 1) ∨
    (¬ (pre ≠ [] ∧ ∃ f, post = [f] ∧ f ≠ ">") ∧ (redirAt pre post).ret = -1) := by
  unfold redirAt
  by_cases h2 : 2 ≤ post.length
  · rw [if_pos h2]
    refine Or.inr ⟨?_, rfl⟩
    rintro ⟨_, f, rfl, _⟩
    simp at h2
  · rw [if_neg h2]
    by_cases h3 : pre = [] ∨ post = []
    · rw [if_pos h3]
      refine Or.inr ⟨?_, rfl⟩
      rintro ⟨hp, f, rfl, _⟩
      rcases h3 with h3 | h3
      · exact hp h3
      · simp at h3
    · rw [if_neg h3]
      by_cases h4 : post = [">"]
      · rw [if_pos h4]
        refine Or.inr ⟨?_, rfl⟩
        rintro ⟨_, f, rfl, hf⟩
        simp at h4
        exact hf h4
      · rw [if_neg h4]
        refine Or.inl ⟨⟨fun e => h3 (Or.inl e), ?_⟩, rfl⟩
        have hpost : post ≠ [] := fun e => h3 (Or.inr e)
        have hql : post.length = 1 := by
          have := List.length_pos.mpr hpost
          omega
        obtain ⟨f, rfl⟩ := List.length_eq_one.mp hql
        exact ⟨f, rfl, fun e => h4 (by rw [e])⟩

theorem singleRedirect_iff (pre post : List String) (h : ">" ∉ pre) :
    SingleRedirect (pre ++ ">" :: post) ↔ (pre ≠ [] ∧ ∃ f, post = [f] ∧ f ≠ ">") := by
  have hc : (pre ++ ">" :: post).count ">" = post.count ">" + 1 := by
    rw [List.count_append, List.count_eq_zero.mpr h]
    simp
  constructor
  · rintro ⟨h1, h2, h3⟩
    have hpost : ">" ∉ post := by
      apply List.count_eq_zero.mp
      omega
    have hlen : (pre ++ ">" :: post).length = pre.length + (post.length + 1) := by simp
    rw [hlen] at h2 h3
    have hmem := List.getElem?_eq_some.mp h3
    obtain ⟨hlt, hget⟩ := hmem
    rcases Nat.lt_trichotomy post.length 1 with hl | hl | hl
    · -- the index falls inside `pre`
      exfalso
      have hi : pre.length + (post.length + 1) - 2 < pre.length := by omega
      rw [List.getElem_append_left hi] at hget
      exact h (hget ▸ List.getElem_mem hi)
    · obtain ⟨f, rfl⟩ := List.length_eq_one.mp hl
      refine ⟨?_, f, rfl, ?_⟩
      · intro e
        rw [e] at h2
        simp at h2
      · intro e
        exact hpost (by simp [e])
    · -- the index falls inside `post`
      exfalso
      have hi : pre.length ≤ pre.length + (post.length + 1) - 2 := by omega
      rw [List.getElem_append_right hi] at hget
      have hj : pre.length + (post.length + 1) - 2 - pre.length = (post.length - 2) + 1 := by
        omega
      simp only [hj, List.getElem_cons_succ] at hget
      exact hpost (hget ▸ List.getElem_mem _)
  · rintro ⟨hp, f, rfl, hf⟩
    have hpl : 0 < pre.length := List.length_pos.mpr hp
    refine ⟨?_, ?_, ?_⟩
    · rw [hc]
      simp [Ne.symm hf]
    · simp
      omega
    · have : (pre ++ [">", f]).length - 2 = pre.length := by simp
      rw [this, List.getElem?_append_right (Nat.le_refl _)]
      simp

/-! ## `wait`: digits and `atoi` -/

theorem snprintf_fits (size : Nat) (text : String) (h : text.length < size) :
    snprintf size text = text := by
  unfold snprintf
  rw [List.take_of_length_le]
  have : text.data.length = text.length := rfl
  omega

theorem hasNonDigit_eq_true (cs : List Char) (h : ∃ c ∈ cs, c < '0' ∨ '9' < c) :
    hasNonDigit cs = true := by
  induction cs with
  | nil => simp at h
  | cons d ds ih =>
    unfold hasNonDigit
    by_cases hd : d.toNat < 48 ∨ d.toNat > 57
    · rw [if_pos hd]
    · rw [if_neg hd]
      apply ih
      obtain ⟨c, hc, hbad⟩ := h
      rcases List.mem_cons.mp hc with e | e
      · exfalso
        subst e
        apply hd
        rcases hbad with hb | hb
        · left; exact Char.lt_def.mp hb
        · right; exact Char.lt_def.mp hb
      · exact ⟨c, e, hbad⟩

theorem hasNonDigit_eq_false (cs : List Char) (h : ∀ c ∈ cs, '0' ≤ c ∧ c ≤ '9') :
    hasNonDigit cs = false := by
  induction cs with
  | nil => rfl
  | cons d ds ih =>
    unfold hasNonDigit
    have hd := h d (List.mem_cons_self d ds)
    have h1 : 48 ≤ d.toNat := Char.le_def.mp hd.1
    have h2 : d.toNat ≤ 57 := Char.le_def.mp hd.2
    rw [if_neg (by omega)]
    exact ih (fun c hc => h c (List.mem_cons_of_mem d hc))

theorem atoiDigits_eq_foldl (cs : List Char) (h : ∀ c ∈ cs, '0' ≤ c ∧ c ≤ '9') :
    ∀ acc, atoiDigits cs acc = cs.foldl (fun v c => 10 * v + (c.toNat - 48)) acc := by
  induction cs with
  | nil => intro acc; rfl
  | cons d ds ih =>
    intro acc
    have hd := h d (List.mem_cons_self d ds)
    have h1 : 48 ≤ d.toNat := Char.le_def.mp hd.1
    have h2 : d.toNat ≤ 57 := Char.le_def.mp hd.2
    unfold atoiDigits
    rw [if_pos ⟨h1, h2⟩, ih (fun c hc => h c (List.mem_cons_of_mem d hc)), List.foldl_cons,
      Nat.mul_comm]

theorem atoi_digits (num : String) (h : ∀ c ∈ num.data, '0' ≤ c ∧ c ≤ '9') :
    atoi num = wrapInt32 (min (decimalValue num : Int) 9223372036854775807) := by
  unfold atoi strtol decimalValue
  have hdrop : num.data.dropWhile isspace = num.data := by
    cases hcs : num.data with
    | nil => rfl
    | cons d ds =>
      have hd := h d (by rw [hcs]; exact List.mem_cons_self d ds)
      have h1 : 48 ≤ d.toNat := Char.le_def.mp hd.1
      have hsp : isspace d = false := by
        unfold isspace
        simp
        omega
      rw [List.dropWhile_cons, hsp]
      rfl
  rw [hdrop]
  split
  · rename_i cs heq
    have hd := h '-' (by rw [heq]; exact List.mem_cons_self _ _)
    exact absurd hd.1 (by decide)
  · rename_i cs heq
    have hd := h '+' (by rw [heq]; exact List.mem_cons_self _ _)
    exact absurd hd.1 (by decide)
  · rw [atoiDigits_eq_foldl _ h]

theorem wrapInt32_of_int (n : Int) (h1 : -2147483648 ≤ n) (h2 : n ≤ 2147483647) :
    wrapInt32 n = n := by
  unfold wrapInt32
  omega

theorem findJid_eq_find? (v : Int) (l : List ProcInfo) :
    findJid v l = l.find? (fun p => decide (p.jid = v)) := by
  induction l with
  | nil => rfl
  | cons p ps ih =>
    unfold findJid
    by_cases e : p.jid = v
    · rw [if_pos e]; simp [e]
    · rw [if_neg e, ih]; simp [e]

/-! ### Frame lemmas -/

theorem waitCommand_frame (num : String) (s : Shell) :
    (waitCommand num s).jobId = s.jobId ∧ (waitCommand num s).head = s.head
      ∧ (waitCommand num s).isBatchMode = s.isBatchMode := by
  unfold waitCommand
  dsimp only
  split
  · exact ⟨rfl, rfl, rfl⟩
  · split
    · exact ⟨rfl, rfl, rfl⟩
    · split <;> exact ⟨rfl, rfl, rfl⟩

theorem printLoop_spec : ∀ (l : List ProcInfo) (s : Shell),
    printLoop l s = { s with trace := s.trace ++ l.map (fun p => Event.write 1 (jobLine p)) } := by
  intro l
  induction l with
  | nil => intro s; simp [printLoop]
  | cons p ps ih => intro s; simp [printLoop, ih, Shell.emit]

theorem removeBgProcess_sublist (pid : Int) : ∀ (l : List ProcInfo),
    List.Sublist (removeBgProcess pid l) l := by
  intro l
  induction l with
  | nil => exact List.Sublist.slnil
  | cons p ps ih =>
    unfold removeBgProcess
    split
    · exact List.sublist_cons_self p ps
    · exact List.Sublist.cons₂ p ih

theorem reapLoop_frame (poll : Nat → WaitOutcome) : ∀ (todo : List ProcInfo) (k : Nat)
    (s : Shell),
    (reapLoop poll k todo s).jobId = s.jobId
      ∧ (reapLoop poll k todo s).isBatchMode = s.isBatchMode
      ∧ List.Sublist (reapLoop poll k todo s).head s.head
      ∧ (reapLoop poll k todo s).trace
          = s.trace ++ todo.map (fun p => Event.waitpid p.pid WaitOptions.nohang) := by
  intro todo
  induction todo with
  | nil => intro k s; simp [reapLoop]
  | cons p ps ih =>
    intro k s
    unfold reapLoop
    dsimp only
    split
    · split
      · obtain ⟨h1, h2, h3, h4⟩ := ih (k + 1)
          { s.emit (Event.waitpid p.pid WaitOptions.nohang) with
            head := removeBgProcess p.pid (s.emit (Event.waitpid p.pid WaitOptions.nohang)).head }
        refine ⟨h1, h2, h3.trans (removeBgProcess_sublist _ _), ?_⟩
        rw [h4]
        simp [Shell.emit]
      · obtain ⟨h1, h2, h3, h4⟩ := ih (k + 1) (s.emit (Event.waitpid p.pid WaitOptions.nohang))
        refine ⟨h1, h2, h3, ?_⟩
        rw [h4]
        simp [Shell.emit]
    · obtain ⟨h1, h2, h3, h4⟩ := ih (k + 1) (s.emit (Event.waitpid p.pid WaitOptions.nohang))
      refine ⟨h1, h2, h3, ?_⟩
      rw [h4]
      simp [Shell.emit]

theorem jobsCommand_frame (poll : Nat → WaitOutcome) (s : Shell) :
    (jobsCommand poll s).jobId = s.jobId
      ∧ (jobsCommand poll s).isBatchMode = s.isBatchMode
      ∧ List.Sublist (jobsCommand poll s).head s.head
      ∧ (jobsCommand poll s).trace
          = s.trace ++ s.head.map (fun p => Event.waitpid p.pid WaitOptions.nohang)
              ++ (jobsCommand poll s).head.map (fun p => Event.write 1 (jobLine p)) := by
  obtain ⟨h1, h2, h3, h4⟩ := reapLoop_frame poll s.head 0 s
  unfold jobsCommand
  dsimp only
  rw [printLoop_spec]
  exact ⟨h1, h2, h3, by rw [h4]⟩

theorem emit_errors (msgs : List String) : ∀ (s : Shell),
    msgs.foldl (fun st msg => st.emit (Event.write 2 msg)) s
      = { s with trace := s.trace ++ msgs.map (Event.write 2) } := by
  induction msgs with
  | nil => intro s; simp
  | cons m ms ih =>
    intro s
    rw [List.foldl_cons, ih]
    simp [Shell.emit]

theorem closeFreeExit_spec (code : Int) (s : Shell) :
    ∃ s1, closeFreeExit code s = Outcome.exited code s1 ∧ s1.jobId = s.jobId ∧ s1.head = []
      ∧ s1.isBatchMode = s.isBatchMode
      ∧ s1.trace = s.trace ++ (if s.isBatchMode = 1 then [Event.fclose] else []) := by
  unfold closeFreeExit
  by_cases h : s.isBatchMode = 1
  · exact ⟨_, rfl, by simp [h, freeResources, Shell.emit]⟩
  · exact ⟨_, rfl, by simp [h, freeResources]⟩

theorem execStep_spec (file : String) (rest : List (Option String)) (env : Env) (s : Shell) :
    ∃ s1, (execStep (some file :: rest) env s = Outcome.exited 0 s1
        ∨ execStep (some file :: rest) env s = Outcome.replaced s1) ∧ s1.jobId = s.jobId := by
  unfold execStep
  dsimp only
  by_cases h : env.execReturns = true
  · rw [if_pos h]
    obtain ⟨s1, h1, h2, _⟩ := closeFreeExit_spec 0
      (((s.emit (Event.execvp file (argvOf (some file :: rest)))).emit
        (Event.write 2 file)).emit (Event.write 2 ": Command not found\n"))
    exact ⟨s1, Or.inl h1, h2⟩
  · rw [if_neg h]
    exact ⟨_, Or.inr rfl, rfl⟩

/-- The forked child never comes back to the read loop: it exits or becomes the command. -/
theorem childBranch_ends (cmds : List String) (env : Env) (s : Shell) (hne : cmds ≠ []) :
    ∃ s1, ((∃ code, childBranch cmds cmds.length env s = Outcome.exited code s1)
        ∨ childBranch cmds cmds.length env s = Outcome.replaced s1) ∧ s1.jobId = s.jobId := by
  unfold childBranch
  by_cases h : ">" ∈ cmds
  · obtain ⟨pre, post, rfl, hpre⟩ := exists_first_redirect cmds h
    rw [isRedirection_first pre post hpre]
    dsimp only
    rw [emit_errors]
    rcases redirAt_ret pre post with ⟨⟨hp, f, rfl, hf⟩, hr⟩ | ⟨_, hr⟩
    · rw [hr, if_neg (by decide), if_pos rfl]
      have hcmds : (redirAt pre [f]).cmds = pre.map some ++ [none, some f] := by
        unfold redirAt
        simp [hp, hf]
      obtain ⟨t, ts, rfl⟩ := List.exists_cons_of_ne_nil hp
      have hlast : (redirAt (t :: ts) [f]).cmds[(t :: ts ++ [">", f]).length - 1]?
          = some (some f) := by
        rw [hcmds]
        have : (t :: ts ++ [">", f]).length - 1 = (List.map some (t :: ts)).length + 1 := by
          simp
        rw [this, List.getElem?_append_right (by omega)]
        simp
      rw [hlast]
      dsimp only
      by_cases ho : env.openRet = -1
      · rw [if_pos ho]
        obtain ⟨s1, h1, h2, _⟩ := closeFreeExit_spec 0
          (({ s with trace := s.trace ++ (redirAt (t :: ts) [f]).err.map (Event.write 2) }.emit
            (Event.close 1)).emit (Event.openFile f env.openRet))
        exact ⟨s1, Or.inl ⟨0, h1⟩, h2⟩
      · rw [if_neg ho, hcmds]
        obtain ⟨s1, h1, h2⟩ := execStep_spec t (ts.map some ++ [none, some f]) env
          (({ s with trace := s.trace ++ (redirAt (t :: ts) [f]).err.map (Event.write 2) }.emit
            (Event.close 1)).emit (Event.openFile f env.openRet))
        refine ⟨s1, ?_, h2⟩
        rcases h1 with h1 | h1
        · exact Or.inl ⟨0, h1⟩
        · exact Or.inr h1
    · rw [hr, if_pos rfl]
      obtain ⟨s1, h1, h2, _⟩ := closeFreeExit_spec 1
        { s with trace := s.trace ++ (redirAt pre post).err.map (Event.write 2) }
      exact ⟨s1, Or.inl ⟨1, h1⟩, h2⟩
  · rw [isRedirection_absent cmds h]
    dsimp only
    rw [emit_errors, if_neg (by decide), if_neg (by decide)]
    obtain ⟨t, ts, rfl⟩ := List.exists_cons_of_ne_nil hne
    obtain ⟨s1, h1, h2⟩ := execStep_spec t (ts.map some) env
      { s with trace := s.trace ++ ([] : List String).map (Event.write 2) }
    refine ⟨s1, ?_, h2⟩
    rcases h1 with h1 | h1
    · exact Or.inl ⟨0, h1⟩
    · exact Or.inr h1

/-! ### `executeCommand`: the counter -/

theorem executeCommand_launch (cmds : List String) (cur : Option Nat) (env : Env) (s : Shell)
    (h : ¬ IsBuiltin cmds) :
    executeCommand cmds cmds.length cur env s = launch cmds cmds.length cur env s := by
  unfold IsBuiltin at h
  unfold executeCommand
  rw [if_neg (fun e => h (Or.inl e)), if_neg (fun e => h (Or.inr (Or.inl e))),
    if_neg (fun e => h (Or.inr (Or.inr e)))]

theorem launch_parent (cmds : List String) (len : Nat) (cur : Option Nat) (env : Env)
    (s : Shell) (h : 0 < env.forkRet) :
    launch cmds len cur env s = Outcome.running
      (match cur with
       | some k =>
         { s with
           jobId := s.jobId + 1
           head := modifyNode (fun p => { p with pid := env.forkRet }) k
             (modifyNode (fun p => { p with jid := s.jobId + 1 }) k s.head)
           trace := s.trace ++ [Event.fork env.forkRet] }
       | none =>
         { s with
           jobId := s.jobId + 1
           trace := s.trace
             ++ [Event.fork env.forkRet, Event.waitpid env.forkRet WaitOptions.blocking] }) := by
  unfold launch
  dsimp only
  rw [if_neg (by omega), if_neg (by omega)]
  cases cur with
  | none => simp [Shell.emit]
  | some k => simp [Shell.emit]

theorem launch_counter (cmds : List String) (cur : Option Nat) (env : Env) (s : Shell)
    (hne : cmds ≠ []) :
    ∃ s1, (launch cmds cmds.length cur env s).state? = some s1 ∧ s1.jobId = s.jobId + 1 := by
  rcases Int.lt_trichotomy env.forkRet 0 with hf | hf | hf
  · unfold launch
    dsimp only
    rw [if_pos hf]
    refine ⟨_, rfl, ?_⟩
    split
    · cases cur <;> rfl
    · cases cur <;> rfl
  · unfold launch
    dsimp only
    rw [if_neg (by omega), if_pos hf]
    have key : ∀ s3 : Shell, s3.jobId = s.jobId + 1 →
        ∃ s1, (childBranch cmds cmds.length env s3).state? = some s1
          ∧ s1.jobId = s.jobId + 1 := by
      intro s3 h3
      obtain ⟨s1, h1, h2⟩ := childBranch_ends cmds env s3 hne
      refine ⟨s1, ?_, by rw [h2, h3]⟩
      rcases h1 with ⟨code, h1⟩ | h1
      · rw [h1]; rfl
      · rw [h1]; rfl
    exact key _ (by cases cur <;> rfl)
  · rw [launch_parent cmds cmds.length cur env s hf]
    cases cur with
    | none => exact ⟨_, rfl, rfl⟩
    | some k => exact ⟨_, rfl, rfl⟩

/-! ### Background lines -/

theorem addBgProcess_eq_append (n : ProcInfo) : ∀ (l : List ProcInfo),
    addBgProcess n l = l ++ [n] := by
  intro l
  induction l with
  | nil => rfl
  | cons p ps ih => simp [addBgProcess, ih]

theorem modifyNode_last (f : ProcInfo → ProcInfo) (n : ProcInfo) : ∀ (l : List ProcInfo),
    modifyNode f l.length (l ++ [n]) = l ++ [f n] := by
  intro l
  induction l with
  | nil => rfl
  | cons p ps ih => simp [modifyNode, ih]

theorem not_builtin_of_background (buffer : List String) (h : Background buffer) :
    ¬ IsBuiltin (buffer.take (buffer.length - 1)) := by
  obtain ⟨⟨h1, h2, h3, h4⟩, _, h6⟩ := h
  have h0 : (buffer.take (buffer.length - 1))[0]? = buffer[0]? := by
    rw [List.getElem?_take_of_lt (by omega)]
  have hl : (buffer.take (buffer.length - 1)).length = buffer.length - 1 := by
    rw [List.length_take]
    omega
  unfold IsBuiltin
  rw [h0, hl]
  rintro (⟨hx, hlen⟩ | ⟨hw, _⟩ | hj)
  · apply h6
    have hlen2 : buffer.length = 2 := by omega
    match buffer, hlen2 with
    | [a, b], _ =>
      simp at hx h2
      rw [hx, h2]
  · exact h4 hw
  · exact h3 hj

theorem dispatch_background (buffer : List String) (env : Env) (s : Shell) (j p : Int)
    (h : Background buffer) (hm : env.malloc = some (j, p)) (hf : 0 < env.forkRet) :
    dispatch buffer env s = Outcome.running
      { s with
        jobId := s.jobId + 1
        head := s.head ++ [⟨s.jobId + 1, env.forkRet, commandText buffer buffer.length⟩]
        trace := s.trace ++ [Event.fork env.forkRet] } := by
  have hb := not_builtin_of_background buffer h
  obtain ⟨⟨h1, h2, h3, h4⟩, h5, _⟩ := h
  unfold dispatch
  dsimp only
  rw [if_pos (by omega), if_neg h5, if_pos ⟨h1, h5, h2, h3, h4⟩, hm]
  dsimp only
  have hl : buffer.length - 1 = (buffer.take (buffer.length - 1)).length := by
    rw [List.length_take]
    omega
  conv_lhs => arg 2; rw [hl]
  rw [executeCommand_launch _ _ _ _ hb, launch_parent _ _ _ _ _ hf]
  dsimp only
  rw [addBgProcess_eq_append, modifyNode_last, modifyNode_last]

theorem loopBody_background (line : String) (env : Env) (s : Shell)
    (h : Background (tokenize line)) (hcap : (tokenize line).length < MAX_LEN / 2)
    (hm : env.malloc ≠ none) (hf : 0 < env.forkRet) :
    ∃ s1, loopBody line env s = Outcome.running s1 ∧ s1.jobId = s.jobId + 1
      ∧ s1.isBatchMode = s.isBatchMode
      ∧ s1.head = s.head
          ++ [⟨s.jobId + 1, env.forkRet, commandText (tokenize line) (tokenize line).length⟩] := by
  obtain ⟨⟨j, p⟩, hjp⟩ := Option.ne_none_iff_exists'.mp hm
  unfold loopBody
  dsimp only
  rw [if_neg (Nat.not_le.mpr hcap), dispatch_background _ env _ j p h hjp hf]
  refine ⟨_, rfl, ?_, ?_, ?_⟩
  · dsimp only
    split <;> split <;> rfl
  · dsimp only
    split <;> split <;> rfl
  · dsimp only
    split <;> split <;> rfl

theorem runLines_background : ∀ (input : List (String × Env)) (s : Shell),
    (∀ le ∈ input, Background (tokenize le.1) ∧ (tokenize le.1).length < MAX_LEN / 2
      ∧ le.2.malloc ≠ none ∧ 0 < le.2.forkRet) →
    ∃ s1, runLines input s = Outcome.running s1 ∧ s1.jobId = s.jobId + input.length
      ∧ s1.head.map ProcInfo.jid
          = s.head.map ProcInfo.jid
            ++ (List.range input.length).map (fun (i : Nat) => s.jobId + 1 + (i : Int)) := by
  intro input
  induction input with
  | nil => intro s _; exact ⟨s, rfl, by simp, by simp⟩
  | cons le rest ih =>
    intro s h
    obtain ⟨line, env⟩ := le
    obtain ⟨hb, hcap, hm, hf⟩ := h (line, env) (List.mem_cons_self _ _)
    obtain ⟨s1, h1, h2, _, h4⟩ := loopBody_background line env s hb hcap hm hf
    obtain ⟨s2, h5, h6, h7⟩ := ih s1 (fun le hle => h le (List.mem_cons_of_mem _ hle))
    refine ⟨s2, ?_, ?_, ?_⟩
    · rw [runLines, h1]
      exact h5
    · rw [h6, h2, List.length_cons]
      push_cast
      ring
    · rw [h7, h4, h2, List.length_cons, List.range_succ_eq_map]
      simp only [List.map_append, List.map_cons, List.map_nil, List.map_map, List.append_assoc,
        List.singleton_append, Nat.cast_zero, add_zero]
      congr 2
      apply List.map_congr_left
      intro i _
      simp only [Function.comp_apply, Nat.cast_succ]
      ring

/-! ### Command text and the `jobs` line -/

theorem intercalate_go_eq_foldl (sep : String) : ∀ (l : List String) (acc : String),
    String.intercalate.go acc sep l = l.foldl (fun line tok => line ++ sep ++ tok) acc := by
  intro l
  induction l with
  | nil => intro acc; rfl
  | cons t ts ih => intro acc; rw [String.intercalate.go, ih, List.foldl_cons]

theorem commandText_background (t : String) (ts : List String) :
    commandText (t :: ts ++ ["&"]) (t :: ts ++ ["&"]).length = " ".intercalate (t :: ts) := by
  unfold commandText
  have h1 : (t :: ts ++ ["&"]).length - 1 = (t :: ts).length := by simp
  rw [h1, List.take_left']
  · rw [String.intercalate, intercalate_go_eq_foldl]
    rfl
  · rfl

theorem toString_int_length (j : Int) (h1 : -2147483648 ≤ j) (h2 : j ≤ 2147483647) :
    (toString j).length ≤ 11 := by
  cases j with
  | ofNat m =>
    have hm : m < 10 ^ 10 := by
      have : (m : Int) ≤ 2147483647 := h2
      omega
    exact le_trans (Nat.repr_length m 10 (by decide) hm) (by decide)
  | negSucc m =>
    have hm : m + 1 < 10 ^ 10 := by
      have : -2147483648 ≤ Int.negSucc m := h1
      rw [Int.negSucc_eq] at this
      omega
    show ("-" ++ Nat.repr (m + 1)).length ≤ 11
    rw [String.length_append]
    have := Nat.repr_length (m + 1) 10 (by decide) hm
    have h0 : "-".length = 1 := by decide
    omega

theorem jobLine_fits (p : ProcInfo) (h : p.Representable) :
    jobLine p = toString p.jid ++ " : " ++ p.line ++ "\n" := by
  obtain ⟨h1, h2, h3⟩ := h
  unfold jobLine
  apply snprintf_fits
  simp only [String.length_append]
  have := toString_int_length p.jid h1 h2
  unfold MAX_LEN at h3
  have h4 : " : ".length = 3 := by decide
  have h5 : "\n".length = 1 := by decide
  omega

theorem dispatch_jobs (env : Env) (s : Shell) :
    dispatch ["jobs"] env s = Outcome.running (jobsCommand env.poll s) := by
  unfold dispatch executeCommand
  simp

/-! ### `jobs`: reaping and listing -/

theorem written_append (fd : Nat) : ∀ (a b : List Event),
    written fd (a ++ b) = written fd a ++ written fd b := by
  intro a
  induction a with
  | nil => intro b; rfl
  | cons e es ih =>
    intro b
    cases e <;> simp [written, ih]
    split <;> simp

theorem written_polls (fd : Nat) (l : List ProcInfo) :
    written fd (l.map (fun p => Event.waitpid p.pid WaitOptions.nohang)) = [] := by
  induction l with
  | nil => rfl
  | cons p ps ih => simpa [written] using ih

theorem written_lines (l : List ProcInfo) (f : ProcInfo → String) :
    written 1 (l.map (fun p => Event.write 1 (f p))) = l.map f := by
  induction l with
  | nil => rfl
  | cons p ps ih => simp [written, ih]

theorem survivors_cons (poll : Nat → WaitOutcome) (k : Nat) (p : ProcInfo)
    (ps : List ProcInfo) :
    survivors poll k (p :: ps)
      = if observedExit poll k then survivors poll (k + 1) ps
        else p :: survivors poll (k + 1) ps := by
  unfold survivors
  rw [List.enumFrom_cons, List.filter_cons]
  cases observedExit poll k <;> simp

theorem removeBgProcess_skip (pid : Int) (rest : List ProcInfo) : ∀ (kept : List ProcInfo)
    (curr : ProcInfo), (∀ q ∈ kept, q.pid ≠ pid) → curr.pid = pid →
    removeBgProcess pid (kept ++ curr :: rest) = kept ++ rest := by
  intro kept
  induction kept with
  | nil =>
    intro curr _ hc
    simp [removeBgProcess, hc]
  | cons q qs ih =>
    intro curr hk hc
    have hq : q.pid ≠ pid := hk q (List.mem_cons_self q qs)
    rw [List.cons_append, removeBgProcess, if_neg hq,
      ih curr (fun x hx => hk x (List.mem_cons_of_mem q hx)) hc]
    rfl

theorem reapLoop_distinct (poll : Nat → WaitOutcome) : ∀ (todo : List ProcInfo) (k : Nat)
    (s : Shell) (kept : List ProcInfo), s.head = kept ++ todo →
    (∀ q ∈ kept, ∀ p ∈ todo, q.pid ≠ p.pid) → (todo.map ProcInfo.pid).Nodup →
    (reapLoop poll k todo s).head = kept ++ survivors poll k todo := by
  intro todo
  induction todo with
  | nil =>
    intro k s kept h _ _
    simp [reapLoop, survivors, h]
  | cons p ps ih =>
    intro k s kept h hk hnd
    rw [List.map_cons, List.nodup_cons] at hnd
    obtain ⟨hp, hps⟩ := hnd
    have hkp : ∀ q ∈ kept, q.pid ≠ p.pid := fun q hq => hk q hq p (List.mem_cons_self p ps)
    have hkps : ∀ q ∈ kept, ∀ x ∈ ps, q.pid ≠ x.pid :=
      fun q hq x hx => hk q hq x (List.mem_cons_of_mem p hx)
    rw [reapLoop, survivors_cons]
    by_cases hobs : observedExit poll k = true
    · have h1 : (poll k).ret > 0 ∧ (poll k).exited = true := by
        unfold observedExit at hobs
        simpa using hobs
      rw [if_pos h1.1, if_pos h1.2, if_pos hobs]
      apply ih (k + 1) _ kept _ hkps hps
      show removeBgProcess p.pid s.head = kept ++ ps
      rw [h, removeBgProcess_skip p.pid ps kept p hkp rfl]
    · have h1 : ¬ ((poll k).ret > 0 ∧ (poll k).exited = true) := by
        unfold observedExit at hobs
        simpa using hobs
      have h2 : (if (poll k).ret > 0 then
            if (poll k).exited = true then
              { s.emit (Event.waitpid p.pid WaitOptions.nohang) with
                head := removeBgProcess p.pid
                  (s.emit (Event.waitpid p.pid WaitOptions.nohang)).head }
            else s.emit (Event.waitpid p.pid WaitOptions.nohang)
          else s.emit (Event.waitpid p.pid WaitOptions.nohang))
          = s.emit (Event.waitpid p.pid WaitOptions.nohang) := by
        split
        · split
          · rename_i a b
            exact absurd ⟨a, b⟩ h1
          · rfl
        · rfl
      rw [h2, if_neg hobs]
      have := ih (k + 1) (s.emit (Event.waitpid p.pid WaitOptions.nohang)) (kept ++ [p])
        (by show s.head = kept ++ [p] ++ ps; rw [h]; simp)
        (by
          intro q hq x hx
          rcases List.mem_append.mp hq with hq | hq
          · exact hkps q hq x hx
          · simp at hq
            subst hq
            intro e
            exact hp (List.mem_map.mpr ⟨x, hx, e.symm⟩))
        hps
      rw [this]
      simp

theorem jobsCommand_head_distinct (poll : Nat → WaitOutcome) (s : Shell)
    (hpid : (s.head.map ProcInfo.pid).Nodup) :
    (jobsCommand poll s).head = survivors poll 0 s.head := by
  have h := reapLoop_distinct poll s.head 0 s [] rfl (fun q hq => by simp at hq) hpid
  unfold jobsCommand
  dsimp only
  rw [printLoop_spec]
  simpa using h

theorem survivors_sublist (poll : Nat → WaitOutcome) : ∀ (l : List ProcInfo) (k : Nat),
    List.Sublist (survivors poll k l) l := by
  intro l
  induction l with
  | nil => intro k; simp [survivors]
  | cons p ps ih =>
    intro k
    rw [survivors_cons]
    split
    · exact (ih (k + 1)).trans (List.sublist_cons_self p ps)
    · exact List.Sublist.cons₂ p (ih (k + 1))

/-! ### One pass of the loop -/

theorem launch_running (cmds : List String) (cur : Option Nat) (env : Env) (s s1 : Shell)
    (hne : cmds ≠ []) (h : launch cmds cmds.length cur env s = Outcome.running s1) :
    0 < env.forkRet := by
  rcases Int.lt_trichotomy env.forkRet 0 with hf | hf | hf
  · unfold launch at h
    dsimp only at h
    rw [if_pos hf] at h
    cases h
  · exfalso
    unfold launch at h
    dsimp only at h
    rw [if_neg (by omega), if_pos hf] at h
    have key : ∀ s3 : Shell, childBranch cmds cmds.length env s3 ≠ Outcome.running s1 := by
      intro s3 e
      obtain ⟨s2, h2, _⟩ := childBranch_ends cmds env s3 hne
      rcases h2 with ⟨code, h2⟩ | h2
      · rw [h2] at e; cases e
      · rw [h2] at e; cases e
    exact key _ h
  · exact hf

theorem executeCommand_running (cmds : List String) (cur : Option Nat) (env : Env)
    (s s1 : Shell) (hne : cmds ≠ [])
    (h : executeCommand cmds cmds.length cur env s = Outcome.running s1) :
    ((cmds[0]? = some "wait" ∨ cmds[0]? = some "jobs") ∧ s1.jobId = s.jobId
        ∧ s1.isBatchMode = s.isBatchMode ∧ List.Sublist s1.head s.head)
    ∨ (¬ IsBuiltin cmds ∧ 0 < env.forkRet
        ∧ launch cmds cmds.length cur env s = Outcome.running s1) := by
  by_cases hb : IsBuiltin cmds
  · left
    unfold executeCommand at h
    rcases hb with ⟨hx, hl⟩ | ⟨hw, hl⟩ | hj
    · rw [if_pos ⟨hx, hl⟩] at h
      obtain ⟨s2, h2, _⟩ := closeFreeExit_spec 0 s
      rw [h2] at h
      cases h
    · have hx : cmds[0]? ≠ some "exit" := by rw [hw]; decide
      rw [if_neg (fun e => hx e.1), if_pos ⟨hw, hl⟩] at h
      have h1 : cmds[1]? = some cmds[1] := List.getElem?_eq_getElem (by omega)
      rw [h1] at h
      cases h
      obtain ⟨f1, f2, f3⟩ := waitCommand_frame cmds[1] s
      exact ⟨Or.inl hw, f1, f3, by rw [f2]⟩
    · have hx : cmds[0]? ≠ some "exit" := by rw [hj]; decide
      have hw : cmds[0]? ≠ some "wait" := by rw [hj]; decide
      rw [if_neg (fun e => hx e.1), if_neg (fun e => hw e.1), if_pos hj] at h
      cases h
      obtain ⟨f1, f2, f3, _⟩ := jobsCommand_frame env.poll s
      exact ⟨Or.inr hj, f1, f2, f3⟩
  · right
    rw [executeCommand_launch cmds cur env s hb] at h
    exact ⟨hb, launch_running cmds cur env s s1 hne h, h⟩

theorem executeCommand_forks (cmds : List String) (len : Nat) (hlen : len = cmds.length)
    (cur : Option Nat) (env : Env) (s s1 : Shell) (hne : cmds ≠ []) (hb : ¬ IsBuiltin cmds)
    (h : executeCommand cmds len cur env s = Outcome.running s1) : 0 < env.forkRet := by
  subst hlen
  rw [executeCommand_launch cmds cur env s hb] at h
  exact launch_running cmds cur env s s1 hne h

/-- What one pass of the loop can do to the counter and the registry when control comes
back: a built-in keeps the counter and may only drop records; a launch adds one to the
counter and either keeps the registry or appends one record carrying the new counter. -/
theorem dispatch_running (buffer : List String) (env : Env) (s s1 : Shell)
    (h : dispatch buffer env s = Outcome.running s1) :
    s1.isBatchMode = s.isBatchMode ∧
    ((s1.jobId = s.jobId ∧ List.Sublist s1.head s.head)
      ∨ (s1.jobId = s.jobId + 1
          ∧ (s1.head = s.head ∨ ∃ p text, s1.head = s.head ++ [⟨s.jobId + 1, p, text⟩]))) := by
  by_cases h0 : buffer.length = 0
  · unfold dispatch at h
    dsimp only at h
    rw [if_neg (by omega)] at h
    cases h
    exact ⟨rfl, Or.inl ⟨rfl, List.Sublist.refl _⟩⟩
  · have hne : buffer ≠ [] := fun e => h0 (by rw [e]; rfl)
    by_cases hk : buffer[0]? = some "&"
    · unfold dispatch at h
      dsimp only at h
      rw [if_pos h0, if_pos hk] at h
      cases h
    · by_cases hq : BackgroundQualifying buffer
      · obtain ⟨q1, q2, q3, q4⟩ := hq
        cases hm : env.malloc with
        | none =>
          unfold dispatch at h
          dsimp only at h
          rw [if_pos h0, if_neg hk, if_pos ⟨q1, hk, q2, q3, q4⟩, hm] at h
          cases h
        | some jp =>
          obtain ⟨j, p⟩ := jp
          by_cases hx : buffer = ["exit", "&"]
          · subst hx
            unfold dispatch executeCommand at h
            rw [hm] at h
            simp at h
            obtain ⟨s2, h2, _⟩ := closeFreeExit_spec 0
              { s with head := addBgProcess ⟨j, p, commandText ["exit", "&"] 2⟩ s.head }
            rw [h2] at h
            cases h
          · have hbg : Background buffer := ⟨⟨q1, q2, q3, q4⟩, hk, hx⟩
            have hb := not_builtin_of_background buffer hbg
            have hl : buffer.length - 1 = (buffer.take (buffer.length - 1)).length := by
              rw [List.length_take]
              omega
            have hne2 : buffer.take (buffer.length - 1) ≠ [] := by
              intro e
              rw [e] at hl
              simp at hl
              omega
            have hf : 0 < env.forkRet := by
              unfold dispatch at h
              dsimp only at h
              rw [if_pos h0, if_neg hk, if_pos ⟨q1, hk, q2, q3, q4⟩, hm] at h
              exact executeCommand_forks _ _ hl _ env _ s1 hne2 hb h
            rw [dispatch_background buffer env s j p hbg hm hf] at h
            cases h
            exact ⟨rfl, Or.inr ⟨rfl, Or.inr ⟨_, _, rfl⟩⟩⟩
      · have hcond : ¬ (buffer.length > 1 ∧ buffer[0]? ≠ some "&"
            ∧ buffer[buffer.length - 1]? = some "&"
            ∧ buffer[0]? ≠ some "jobs" ∧ buffer[0]? ≠ some "wait") := by
          rintro ⟨c1, _, c3, c4, c5⟩
          exact hq ⟨c1, c3, c4, c5⟩
        unfold dispatch at h
        dsimp only at h
        rw [if_pos h0, if_neg hk, if_neg hcond] at h
        rcases executeCommand_running buffer none env s s1 hne h with
          ⟨_, f1, f2, f3⟩ | ⟨_, hf, hl⟩
        · exact ⟨f2, Or.inl ⟨f1, f3⟩⟩
        · rw [launch_parent buffer buffer.length none env s hf] at hl
          cases hl
          exact ⟨rfl, Or.inr ⟨rfl, Or.inl rfl⟩⟩

/-! ### Retired jids -/

theorem loopBody_running (line : String) (env : Env) (s s1 : Shell)
    (h : loopBody line env s = Outcome.running s1) :
    s1.isBatchMode = s.isBatchMode ∧
    ((s1.jobId = s.jobId ∧ List.Sublist s1.head s.head)
      ∨ (s1.jobId = s.jobId + 1
          ∧ (s1.head = s.head ∨ ∃ p text, s1.head = s.head ++ [⟨s.jobId + 1, p, text⟩]))) := by
  unfold loopBody at h
  dsimp only at h
  by_cases hcap : MAX_LEN / 2 ≤ (tokenize line).length
  · rw [if_pos hcap] at h
    exact Outcome.noConfusion h
  rw [if_neg hcap] at h
  have key := dispatch_running _ _ _ _ h
  have e1 : ∀ (c1 c2 : Prop) [Decidable c1] [Decidable c2] (e1 e2 : Event),
      let sa := if c1 then s.emit e1 else s
      let sb := if c2 then sa.emit e2 else sa
      sb.isBatchMode = s.isBatchMode ∧ sb.jobId = s.jobId ∧ sb.head = s.head := by
    intro c1 c2 _ _ e1 e2
    dsimp only
    split <;> split <;> exact ⟨rfl, rfl, rfl⟩
  obtain ⟨k1, k2, k3⟩ := e1 (s.isBatchMode = 0)
    ((if s.isBatchMode = 0 then s.emit (Event.write 1 "mysh> ") else s).isBatchMode = 1)
    (Event.write 1 "mysh> ") (Event.write 1 line)
  rw [k1, k2, k3] at key
  exact key

theorem retired_step (j : Int) (line : String) (env : Env) (s s1 : Shell)
    (hr : Retired j s) (h : loopBody line env s = Outcome.running s1) : Retired j s1 := by
  obtain ⟨h1, h2⟩ := hr
  obtain ⟨_, hcase⟩ := loopBody_running line env s s1 h
  rcases hcase with ⟨e1, e2⟩ | ⟨e1, e2⟩
  · exact ⟨by rw [e1]; exact h1, fun q hq => h2 q (e2.subset hq)⟩
  · refine ⟨by rw [e1]; omega, ?_⟩
    rcases e2 with e2 | ⟨p, text, e2⟩
    · rw [e2]; exact h2
    · rw [e2]
      intro q hq
      rcases List.mem_append.mp hq with hq | hq
      · exact h2 q hq
      · simp at hq
        rw [hq]
        show s.jobId + 1 ≠ j
        omega

theorem retired_run (j : Int) : ∀ (input : List (String × Env)) (s s2 : Shell),
    Retired j s → runLines input s = Outcome.running s2 → Retired j s2 := by
  intro input
  induction input with
  | nil =>
    intro s s2 hr h
    cases h
    exact hr
  | cons le rest ih =>
    intro s s2 hr h
    obtain ⟨line, env⟩ := le
    rw [runLines] at h
    cases hl : loopBody line env s with
    | running s1 =>
      rw [hl] at h
      exact ih s1 s2 (retired_step j line env s s1 hr hl) h
    | exited c s1 => rw [hl] at h; cases h
    | replaced s1 => rw [hl] at h; cases h
    | undefined => rw [hl] at h; cases h

/-! ### `jobs` after an exit -/

theorem jobsCommand_written (poll : Nat → WaitOutcome) (s : Shell) :
    written 1 (jobsCommand poll s).trace
      = written 1 s.trace ++ (jobsCommand poll s).head.map jobLine := by
  obtain ⟨_, _, _, h4⟩ := jobsCommand_frame poll s
  rw [h4, written_append, written_append, written_polls, written_lines]
  simp

/-! ### Further facts on the validator and on `wait` -/

theorem singleRedirect_iff_split (toks : List String) :
    SingleRedirect toks ↔
      ∃ pre file, pre ≠ [] ∧ ">" ∉ pre ∧ file ≠ ">" ∧ toks = pre ++ [">", file] := by
  constructor
  · intro h
    have hmem : ">" ∈ toks := List.count_pos_iff.mp (by rw [h.1]; decide)
    obtain ⟨pre, post, rfl, hpre⟩ := exists_first_redirect toks hmem
    obtain ⟨hp, f, rfl, hf⟩ := (singleRedirect_iff pre post hpre).mp h
    exact ⟨pre, f, hp, hpre, hf, rfl⟩
  · rintro ⟨pre, f, hp, hpre, hf, rfl⟩
    exact (singleRedirect_iff pre [f] hpre).mpr ⟨hp, f, rfl, hf⟩

theorem waitCommand_above_counter (num : String) (s : Shell) (hlen : num.length < MAX_LEN)
    (hdig : ∀ c ∈ num.data, '0' ≤ c ∧ c ≤ '9') (hv : s.jobId < (decimalValue num : Int))
    (hfit : (decimalValue num : Int) ≤ 2147483647) :
    waitCommand num s
      = { s with trace := s.trace ++ [Event.write 2 ("Invalid JID " ++ num ++ "\n")] } := by
  unfold waitCommand
  rw [hasNonDigit_eq_false num.data hdig, atoi_digits num hdig, min_eq_left (by omega),
    wrapInt32_of_int _ (by omega) hfit]
  have hfit : snprintf 1000 ("Invalid JID " ++ num ++ "\n") = "Invalid JID " ++ num ++ "\n" := by
    apply snprintf_fits
    simp only [String.length_append]
    unfold MAX_LEN at hlen
    have h1 : "Invalid JID ".length = 12 := by decide
    have h2 : "\n".length = 1 := by decide
    omega
  simp only [hfit, Bool.false_eq_true, if_false, gt_iff_lt, if_pos hv]
  rfl

/-! ### The forked child, `launch` and the ways out of the loop -/

theorem argvOf_tokens (pre : List String) (rest : List (Option String)) :
    argvOf (pre.map some ++ none :: rest) = pre := by
  induction pre with
  | nil => rfl
  | cons t ts ih => simp [argvOf, ih]

theorem argvOf_all (toks : List String) : argvOf (toks.map some) = toks := by
  induction toks with
  | nil => rfl
  | cons t ts ih => simp [argvOf, ih]

theorem emit_errors_nil (s : Shell) :
    ({ s with trace := s.trace ++ ([] : List String).map (Event.write 2) } : Shell) = s := by
  simp

/-- The child on a vector without `>`: straight to `execvp`. -/
theorem childBranch_plain (cmds : List String) (env : Env) (s : Shell) (h : ">" ∉ cmds) :
    childBranch cmds cmds.length env s = execStep (cmds.map some) env s := by
  unfold childBranch
  rw [isRedirection_absent cmds h]
  dsimp only
  rw [emit_errors, if_neg (by decide), if_neg (by decide), emit_errors_nil]

/-- The child on a vector whose validation fails: the message, then `exit(1)`. -/
theorem childBranch_invalid (pre post : List String) (env : Env) (s : Shell)
    (hpre : ">" ∉ pre) (hbad : ¬ (pre ≠ [] ∧ ∃ f, post = [f] ∧ f ≠ ">")) :
    childBranch (pre ++ ">" :: post) (pre ++ ">" :: post).length env s
      = closeFreeExit 1
          { s with trace := s.trace ++ (redirAt pre post).err.map (Event.write 2) } := by
  unfold childBranch
  rw [isRedirection_first pre post hpre]
  dsimp only
  rw [emit_errors]
  rcases redirAt_ret pre post with ⟨hc, _⟩ | ⟨_, hr⟩
  · exact absurd hc hbad
  · rw [hr, if_pos rfl]

/-- The child on a well-formed redirection: close descriptor 1, open the last token,
then `execvp` on the vector cut at the `>`. -/
theorem childBranch_redirect (pre : List String) (f : String) (env : Env) (s : Shell)
    (hp : pre ≠ []) (hpre : ">" ∉ pre) (hf : f ≠ ">") :
    childBranch (pre ++ [">", f]) (pre ++ [">", f]).length env s
      = if env.openRet = -1 then
          closeFreeExit 0
            { s with trace := s.trace ++ [Event.close 1, Event.openFile f env.openRet] }
        else
          execStep (pre.map some ++ [none, some f]) env
            { s with trace := s.trace ++ [Event.close 1, Event.openFile f env.openRet] } := by
  unfold childBranch
  rw [isRedirection_first pre [f] hpre]
  have hall : redirAt pre [f] = ⟨1, pre.map some ++ [none, some f], []⟩ := by
    unfold redirAt
    simp [hp, hf]
  rw [hall]
  dsimp only
  rw [emit_errors, if_neg (by decide), if_pos rfl]
  have hlast : (pre.map some ++ [none, some f])[(pre ++ [">", f]).length - 1]?
      = some (some f) := by
    have : (pre ++ [">", f]).length - 1 = (List.map some pre).length + 1 := by simp
    rw [this, List.getElem?_append_right (by omega)]
    simp
  rw [hlast]
  dsimp only
  simp [Shell.emit]

theorem execStep_cons (file : String) (rest : List (Option String)) (env : Env) (s : Shell) :
    execStep (some file :: rest) env s
      = if env.execReturns then
          closeFreeExit 0
            { s with trace := s.trace ++ [Event.execvp file (argvOf (some file :: rest)),
                Event.write 2 file, Event.write 2 ": Command not found\n"] }
        else
          Outcome.replaced
            { s with trace := s.trace ++ [Event.execvp file (argvOf (some file :: rest))] } := by
  unfold execStep
  dsimp only
  split <;> simp [Shell.emit]

theorem closeFreeExit_eq (code : Int) (s : Shell) :
    closeFreeExit code s
      = Outcome.exited code
          { s with head := [],
                   trace := s.trace ++ (if s.isBatchMode = 1 then [Event.fclose] else []) } := by
  unfold closeFreeExit freeResources
  split <;> simp [Shell.emit]

theorem redirAt_err (pre post : List String) :
    (redirAt pre post).err
      = if 2 ≤ post.length then ["Redirect Error: args > 1 after >\n"]
        else if pre = [] ∨ post = [] then ["Redirect Error: No file or command\n"]
        else if post = [">"] then ["Redirect Error: More than 1 >\n"]
        else [] := by
  unfold redirAt
  split
  · rfl
  · split
    · rfl
    · split <;> rfl

theorem redirAt_cmds (pre post : List String) :
    (redirAt pre post).cmds
      = if 2 ≤ post.length then (pre ++ ">" :: post).map some
        else pre.map some ++ none :: post.map some := by
  unfold redirAt
  split
  · rfl
  · split
    · rfl
    · split <;> rfl

theorem launch_child (cmds : List String) (len : Nat) (cur : Option Nat) (env : Env)
    (s : Shell) (h : env.forkRet = 0) :
    ∃ s3, launch cmds len cur env s = childBranch cmds len env s3
      ∧ s3.trace = s.trace ++ [Event.fork 0] ∧ s3.jobId = s.jobId + 1
      ∧ s3.isBatchMode = s.isBatchMode
      ∧ s3.head = (match cur with
          | some k => modifyNode (fun p => { p with jid := s.jobId + 1 }) k s.head
          | none => s.head) := by
  unfold launch
  dsimp only
  rw [if_neg (by omega), if_pos h, h]
  refine ⟨_, rfl, ?_, ?_, ?_, ?_⟩ <;> cases cur <;> rfl

/-- Where the forked child ends: it only adds to the trace, keeps counter and mode, and
either exits with the registry freed (after closing the batch file in batch mode) or
becomes the command with the registry as it was. -/
theorem childBranch_state (cmds : List String) (env : Env) (s : Shell) (hne : cmds ≠ []) :
    ∃ s1 t, s1.trace = s.trace ++ t ∧ s1.jobId = s.jobId ∧ s1.isBatchMode = s.isBatchMode ∧
      ((∃ code, childBranch cmds cmds.length env s = Outcome.exited code s1 ∧ s1.head = []
          ∧ (s.isBatchMode = 1 → Event.fclose ∈ t))
        ∨ (childBranch cmds cmds.length env s = Outcome.replaced s1 ∧ s1.head = s.head)) := by
  have hexit : ∀ (code : Int) (s0 : Shell) (t0 : List Event), s0.trace = s.trace ++ t0 →
      s0.jobId = s.jobId → s0.isBatchMode = s.isBatchMode →
      ∃ s1 t, s1.trace = s.trace ++ t ∧ s1.jobId = s.jobId ∧ s1.isBatchMode = s.isBatchMode ∧
        closeFreeExit code s0 = Outcome.exited code s1 ∧ s1.head = []
          ∧ (s.isBatchMode = 1 → Event.fclose ∈ t) := by
    intro code s0 t0 ht hj hm
    rw [closeFreeExit_eq]
    refine ⟨Shell.mk s0.isBatchMode s0.jobId []
        (s0.trace ++ (if s0.isBatchMode = 1 then [Event.fclose] else [])),
      t0 ++ (if s0.isBatchMode = 1 then [Event.fclose] else []), ?_, hj, hm, rfl, rfl, ?_⟩
    · show s0.trace ++ _ = _
      rw [ht, List.append_assoc]
    · intro hb
      rw [hm, if_pos hb]
      simp
  have hexec : ∀ (file : String) (rest : List (Option String)) (s0 : Shell) (t0 : List Event),
      s0.trace = s.trace ++ t0 → s0.jobId = s.jobId → s0.isBatchMode = s.isBatchMode →
      s0.head = s.head →
      ∃ s1 t, s1.trace = s.trace ++ t ∧ s1.jobId = s.jobId ∧ s1.isBatchMode = s.isBatchMode ∧
        ((∃ code, execStep (some file :: rest) env s0 = Outcome.exited code s1 ∧ s1.head = []
            ∧ (s.isBatchMode = 1 → Event.fclose ∈ t))
          ∨ (execStep (some file :: rest) env s0 = Outcome.replaced s1 ∧ s1.head = s.head)) := by
    intro file rest s0 t0 ht hj hm hh
    rw [execStep_cons]
    by_cases hx : env.execReturns = true
    · rw [if_pos hx]
      obtain ⟨s1, t, h1, h2, h3, h4, h5, h6⟩ := hexit 0
        { s0 with trace := s0.trace ++ [Event.execvp file (argvOf (some file :: rest)),
            Event.write 2 file, Event.write 2 ": Command not found\n"] }
        (t0 ++ [Event.execvp file (argvOf (some file :: rest)),
            Event.write 2 file, Event.write 2 ": Command not found\n"])
        (by show s0.trace ++ _ = _; rw [ht, List.append_assoc]) hj hm
      exact ⟨s1, t, h1, h2, h3, Or.inl ⟨0, h4, h5, h6⟩⟩
    · rw [if_neg hx]
      refine ⟨Shell.mk s0.isBatchMode s0.jobId s0.head
          (s0.trace ++ [Event.execvp file (argvOf (some file :: rest))]),
        t0 ++ [Event.execvp file (argvOf (some file :: rest))], ?_, hj, hm,
        Or.inr ⟨rfl, hh⟩⟩
      show s0.trace ++ _ = _
      rw [ht, List.append_assoc]
  by_cases hmem : ">" ∈ cmds
  · obtain ⟨pre, post, rfl, hpre⟩ := exists_first_redirect cmds hmem
    by_cases hok : pre ≠ [] ∧ ∃ f, post = [f] ∧ f ≠ ">"
    · obtain ⟨hp, f, rfl, hf⟩ := hok
      rw [childBranch_redirect pre f env s hp hpre hf]
      by_cases ho : env.openRet = -1
      · rw [if_pos ho]
        obtain ⟨s1, t, h1, h2, h3, h4, h5, h6⟩ := hexit 0
          { s with trace := s.trace ++ [Event.close 1, Event.openFile f env.openRet] }
          [Event.close 1, Event.openFile f env.openRet] rfl rfl rfl
        exact ⟨s1, t, h1, h2, h3, Or.inl ⟨0, h4, h5, h6⟩⟩
      · rw [if_neg ho]
        obtain ⟨x, xs, rfl⟩ := List.exists_cons_of_ne_nil hp
        exact hexec x (xs.map some ++ [none, some f])
          { s with trace := s.trace ++ [Event.close 1, Event.openFile f env.openRet] }
          [Event.close 1, Event.openFile f env.openRet] rfl rfl rfl rfl
    · rw [childBranch_invalid pre post env s hpre hok]
      obtain ⟨s1, t, h1, h2, h3, h4, h5, h6⟩ := hexit 1
        { s with trace := s.trace ++ (redirAt pre post).err.map (Event.write 2) }
        ((redirAt pre post).err.map (Event.write 2)) rfl rfl rfl
      exact ⟨s1, t, h1, h2, h3, Or.inl ⟨1, h4, h5, h6⟩⟩
  · rw [childBranch_plain cmds env s hmem]
    obtain ⟨x, xs, rfl⟩ := List.exists_cons_of_ne_nil hne
    have := hexec x (xs.map some) s [] (by simp) rfl rfl rfl
    simpa using this

theorem launch_failed (cmds : List String) (len : Nat) (cur : Option Nat) (env : Env)
    (s : Shell) (h : env.forkRet < 0) :
    launch cmds len cur env s = Outcome.exited 1
      { s with jobId := s.jobId + 1, head := [],
               trace := s.trace ++ [Event.fork env.forkRet, Event.write 2 "fork failed\n"]
                 ++ (if s.isBatchMode = 1 then [Event.fclose] else []) } := by
  unfold launch
  dsimp only
  rw [if_pos h]
  cases cur <;> (simp only [freeResources, Shell.emit]; split <;> simp)

/-- Every way `launch` can end: the trace grows by the `fork` and what follows it, the
counter by one; an exit leaves the registry empty and, in batch mode, the file closed. -/
theorem launch_state (cmds : List String) (cur : Option Nat) (env : Env) (s : Shell)
    (hne : cmds ≠ []) :
    ∃ s1 t, (launch cmds cmds.length cur env s).state? = some s1
      ∧ s1.trace = s.trace ++ Event.fork env.forkRet :: t ∧ s1.jobId = s.jobId + 1
      ∧ s1.isBatchMode = s.isBatchMode
      ∧ (cur = none → List.Sublist s1.head s.head)
      ∧ (∀ code s2, launch cmds cmds.length cur env s = Outcome.exited code s2 →
          s2.head = [] ∧ (s.isBatchMode = 1 → Event.fclose ∈ t)) := by
  rcases Int.lt_trichotomy env.forkRet 0 with hf | hf | hf
  · rw [launch_failed cmds cmds.length cur env s hf]
    refine ⟨_, Event.write 2 "fork failed\n"
        :: (if s.isBatchMode = 1 then [Event.fclose] else []),
      rfl, ?_, rfl, rfl, fun _ => List.nil_sublist _, ?_⟩
    · show s.trace ++ _ ++ _ = _
      simp
    · intro code s2 e
      cases e
      refine ⟨rfl, fun hb => ?_⟩
      rw [if_pos hb]
      simp
  · obtain ⟨s3, h3, ht, hj, hm, hh⟩ := launch_child cmds cmds.length cur env s hf
    obtain ⟨s1, t, h1, h2, hmode, hcase⟩ := childBranch_state cmds env s3 hne
    rw [h3]
    have htrace : s1.trace = s.trace ++ Event.fork env.forkRet :: t := by
      rw [h1, ht, hf]
      simp
    rcases hcase with ⟨code, hc, hhead, hfc⟩ | ⟨hc, hhead⟩
    · rw [hc]
      refine ⟨s1, t, rfl, htrace, by rw [h2, hj], by rw [hmode, hm],
        fun _ => by rw [hhead]; exact List.nil_sublist _, ?_⟩
      intro code2 s2 e
      cases e
      exact ⟨hhead, fun hb => hfc (by rw [hm]; exact hb)⟩
    · rw [hc]
      refine ⟨s1, t, rfl, htrace, by rw [h2, hj], by rw [hmode, hm], ?_, ?_⟩
      · intro hcur
        rw [hhead, hh, hcur]
      · intro code2 s2 e
        cases e
  · rw [launch_parent cmds cmds.length cur env s hf]
    cases cur with
    | none =>
      refine ⟨_, [Event.waitpid env.forkRet WaitOptions.blocking], rfl, rfl, rfl, rfl,
        fun _ => List.Sublist.refl _, ?_⟩
      intro code s2 e
      cases e
    | some k =>
      refine ⟨_, [], rfl, rfl, rfl, rfl, ?_, ?_⟩
      · intro e
        exact absurd e (by simp)
      · intro code s2 e
        cases e

theorem dispatch_kill (buffer : List String) (env : Env) (s : Shell)
    (h : buffer[0]? = some "&") :
    dispatch buffer env s
      = Outcome.exited 0
          { s with head := [], trace := s.trace ++ [Event.write 1 "exit\n"] } := by
  have hne : buffer.length ≠ 0 := by
    intro e
    rw [List.length_eq_zero.mp e] at h
    simp at h
  unfold dispatch
  dsimp only
  rw [if_pos hne, if_pos h]
  rfl

theorem dispatch_foreground (buffer : List String) (env : Env) (s : Shell)
    (hne : buffer ≠ []) (hk : buffer[0]? ≠ some "&") (hq : ¬ BackgroundQualifying buffer) :
    dispatch buffer env s = executeCommand buffer buffer.length none env s := by
  have h0 : buffer.length ≠ 0 := fun e => hne (List.length_eq_zero.mp e)
  have hcond : ¬ (buffer.length > 1 ∧ buffer[0]? ≠ some "&"
      ∧ buffer[buffer.length - 1]? = some "&"
      ∧ buffer[0]? ≠ some "jobs" ∧ buffer[0]? ≠ some "wait") := by
    rintro ⟨c1, _, c3, c4, c5⟩
    exact hq ⟨c1, c3, c4, c5⟩
  unfold dispatch
  dsimp only
  rw [if_pos h0, if_neg hk, if_neg hcond]

theorem dispatch_qualifying (buffer : List String) (env : Env) (s : Shell)
    (hk : buffer[0]? ≠ some "&") (hq : BackgroundQualifying buffer) :
    dispatch buffer env s
      = match env.malloc with
        | none => Outcome.exited 1 { s with head := [] }
        | some (j, p) =>
          executeCommand (buffer.take (buffer.length - 1)) (buffer.take (buffer.length - 1)).length
            (some s.head.length) env
            { s with head := s.head ++ [⟨j, p, commandText buffer buffer.length⟩] } := by
  obtain ⟨q1, q2, q3, q4⟩ := hq
  have h0 : buffer.length ≠ 0 := by omega
  have hl : (buffer.take (buffer.length - 1)).length = buffer.length - 1 := by
    rw [List.length_take]
    omega
  unfold dispatch
  dsimp only
  rw [if_pos h0, if_neg hk, if_pos ⟨q1, hk, q2, q3, q4⟩, hl]
  cases env.malloc with
  | none => rfl
  | some jp =>
    obtain ⟨j, p⟩ := jp
    dsimp only
    rw [addBgProcess_eq_append]

/-- Every way `executeCommand` can end on a non-empty vector. -/
theorem executeCommand_state (cmds : List String) (cur : Option Nat) (env : Env) (s : Shell) :
    (cmds[0]? = some "exit" ∧ cmds.length = 1
        ∧ executeCommand cmds cmds.length cur env s
            = Outcome.exited 0
                { s with head := [],
                         trace := s.trace ++ (if s.isBatchMode = 1 then [Event.fclose] else []) })
    ∨ ((cmds[0]? = some "wait" ∨ cmds[0]? = some "jobs")
        ∧ ∃ s1, executeCommand cmds cmds.length cur env s = Outcome.running s1
          ∧ s1.jobId = s.jobId ∧ List.Sublist s1.head s.head)
    ∨ (¬ IsBuiltin cmds
        ∧ executeCommand cmds cmds.length cur env s = launch cmds cmds.length cur env s) := by
  by_cases hb : IsBuiltin cmds
  · rcases hb with ⟨hx, hl⟩ | ⟨hw, hl⟩ | hj
    · left
      refine ⟨hx, hl, ?_⟩
      unfold executeCommand
      rw [if_pos ⟨hx, hl⟩, closeFreeExit_eq]
    · right; left
      have hx : cmds[0]? ≠ some "exit" := by rw [hw]; decide
      refine ⟨Or.inl hw, ?_⟩
      unfold executeCommand
      rw [if_neg (fun e => hx e.1), if_pos ⟨hw, hl⟩]
      have h1 : cmds[1]? = some cmds[1] := List.getElem?_eq_getElem (by omega)
      rw [h1]
      obtain ⟨f1, f2, _⟩ := waitCommand_frame cmds[1] s
      exact ⟨_, rfl, f1, by rw [f2]⟩
    · right; left
      have hx : cmds[0]? ≠ some "exit" := by rw [hj]; decide
      have hw : cmds[0]? ≠ some "wait" := by rw [hj]; decide
      refine ⟨Or.inr hj, ?_⟩
      unfold executeCommand
      rw [if_neg (fun e => hx e.1), if_neg (fun e => hw e.1), if_pos hj]
      obtain ⟨f1, _, f3, _⟩ := jobsCommand_frame env.poll s
      exact ⟨_, rfl, f1, f3⟩
  · right; right
    exact ⟨hb, executeCommand_launch cmds cur env s hb⟩

/-- Every way the loop can terminate the process while handling one token vector whose
first token is not `&`: the registry is empty at the exit; either the allocation of the
job record failed (code 1, nothing else happened), or `exit` was run, or a `fork`
preceded the exit; the last two close the batch file in batch mode. -/
theorem dispatch_exited (buffer : List String) (env : Env) (s s1 : Shell) (code : Int)
    (hk : buffer[0]? ≠ some "&") (h : dispatch buffer env s = Outcome.exited code s1) :
    s1.head = [] ∧
    ((code = 1 ∧ s1.trace = s.trace ∧ BackgroundQualifying buffer ∧ env.malloc = none)
      ∨ (code = 0 ∧ s1.trace = s.trace ++ (if s.isBatchMode = 1 then [Event.fclose] else []))
      ∨ (∃ t, s1.trace = s.trace ++ Event.fork env.forkRet :: t
          ∧ (s.isBatchMode = 1 → Event.fclose ∈ t))) := by
  by_cases hne : buffer = []
  · subst hne
    unfold dispatch at h
    simp at h
  · have hstate : ∀ (cmds : List String) (cur : Option Nat) (s0 : Shell), cmds ≠ [] →
        s0.trace = s.trace → s0.isBatchMode = s.isBatchMode →
        executeCommand cmds cmds.length cur env s0 = Outcome.exited code s1 →
        s1.head = [] ∧
        ((code = 0 ∧ s1.trace = s.trace ++ (if s.isBatchMode = 1 then [Event.fclose] else []))
          ∨ (∃ t, s1.trace = s.trace ++ Event.fork env.forkRet :: t
              ∧ (s.isBatchMode = 1 → Event.fclose ∈ t))) := by
      intro cmds cur s0 hc ht hm he
      rcases executeCommand_state cmds cur env s0 with ⟨_, _, hx⟩ | ⟨_, s2, hr, _⟩ | ⟨_, hl⟩
      · rw [hx] at he
        cases he
        exact ⟨rfl, Or.inl ⟨rfl, by show s0.trace ++ _ = _; rw [ht, hm]⟩⟩
      · rw [hr] at he
        cases he
      · rw [hl] at he
        obtain ⟨s2, t, h1, h2, _, _, _, h6⟩ := launch_state cmds cur env s0 hc
        rw [he] at h1
        cases h1
        obtain ⟨h7, h8⟩ := h6 code s1 he
        exact ⟨h7, Or.inr ⟨t, by rw [h2, ht], fun hb => h8 (by rw [hm]; exact hb)⟩⟩
    by_cases hq : BackgroundQualifying buffer
    · rw [dispatch_qualifying buffer env s hk hq] at h
      cases hm : env.malloc with
      | none =>
        rw [hm] at h
        cases h
        exact ⟨rfl, Or.inl ⟨rfl, rfl, hq, rfl⟩⟩
      | some jp =>
        obtain ⟨j, p⟩ := jp
        rw [hm] at h
        dsimp only at h
        have hne2 : buffer.take (buffer.length - 1) ≠ [] := by
          intro e
          have := congrArg List.length e
          rw [List.length_take] at this
          have := hq.1
          simp at *
          omega
        have hs := hstate (buffer.take (buffer.length - 1)) (some s.head.length)
          (Shell.mk s.isBatchMode s.jobId
            (s.head ++ [⟨j, p, commandText buffer buffer.length⟩]) s.trace) hne2 rfl rfl
        obtain ⟨h1, h2⟩ := hs h
        exact ⟨h1, Or.inr h2⟩
    · rw [dispatch_foreground buffer env s hne hk hq] at h
      obtain ⟨h1, h2⟩ := hstate buffer none s hne rfl rfl h
      exact ⟨h1, Or.inr h2⟩

theorem executeCommand_foreground_head (cmds : List String) (env : Env) (s s1 : Shell)
    (hne : cmds ≠ []) (h : (executeCommand cmds cmds.length none env s).state? = some s1) :
    List.Sublist s1.head s.head := by
  rcases executeCommand_state cmds none env s with ⟨_, _, hx⟩ | ⟨_, s2, hr, _, hs⟩ | ⟨_, hl⟩
  · rw [hx] at h
    cases h
    exact List.nil_sublist _
  · rw [hr] at h
    cases h
    exact hs
  · rw [hl] at h
    obtain ⟨s2, t, h1, _, _, _, h5, _⟩ := launch_state cmds none env s hne
    rw [h] at h1
    cases h1
    exact h5 rfl

theorem removeBgProcess_eq_eraseP (pid : Int) : ∀ (l : List ProcInfo),
    removeBgProcess pid l = l.eraseP (fun p => decide (p.pid = pid)) := by
  intro l
  induction l with
  | nil => rfl
  | cons p ps ih =>
    unfold removeBgProcess
    by_cases h : p.pid = pid
    · rw [if_pos h]
      simp [h]
    · rw [if_neg h, ih]
      simp [h]

theorem removeBgProcess_absent (pid : Int) : ∀ (l : List ProcInfo),
    (∀ q ∈ l, q.pid ≠ pid) → removeBgProcess pid l = l := by
  intro l
  induction l with
  | nil => intro _; rfl
  | cons p ps ih =>
    intro h
    unfold removeBgProcess
    rw [if_neg (h p (List.mem_cons_self p ps)), ih (fun q hq => h q (List.mem_cons_of_mem p hq))]

theorem jidsOrdered_fresh (batch : Int) : JidsOrdered (Shell.fresh batch) := by
  refine ⟨List.Pairwise.nil, ?_, ?_⟩
  · intro p hp
    cases hp
  · show (-1 : Int) ≤ -1
    decide

theorem jidsOrdered_step (line : String) (env : Env) (s s1 : Shell)
    (hinv : JidsOrdered s) (h : loopBody line env s = Outcome.running s1) :
    JidsOrdered s1 := by
  obtain ⟨hp, hb, hc⟩ := hinv
  obtain ⟨_, hcase⟩ := loopBody_running line env s s1 h
  rcases hcase with ⟨e1, e2⟩ | ⟨e1, e2⟩
  · refine ⟨hp.sublist (e2.map ProcInfo.jid), ?_, by rw [e1]; exact hc⟩
    intro p hp1
    rw [e1]
    exact hb p (e2.subset hp1)
  · rcases e2 with e2 | ⟨pid, text, e2⟩
    · refine ⟨by rw [e2]; exact hp, ?_, by rw [e1]; omega⟩
      intro p hp1
      rw [e2] at hp1
      obtain ⟨b1, b2⟩ := hb p hp1
      exact ⟨b1, by rw [e1]; omega⟩
    · refine ⟨?_, ?_, by rw [e1]; omega⟩
      · rw [e2, List.map_append, List.pairwise_append]
        refine ⟨hp, by simp, ?_⟩
        intro a ha b hb1
        simp at hb1
        obtain ⟨q, hq, rfl⟩ := List.mem_map.mp ha
        rw [hb1]
        have := (hb q hq).2
        omega
      · intro p hp1
        rw [e2] at hp1
        rcases List.mem_append.mp hp1 with hp1 | hp1
        · obtain ⟨b1, b2⟩ := hb p hp1
          exact ⟨b1, by rw [e1]; omega⟩
        · simp at hp1
          rw [hp1, e1]
          show 0 ≤ s.jobId + 1 ∧ s.jobId + 1 ≤ s.jobId + 1
          omega

theorem jidsOrdered_run : ∀ (input : List (String × Env)) (s s2 : Shell),
    JidsOrdered s → runLines input s = Outcome.running s2 → JidsOrdered s2 := by
  intro input
  induction input with
  | nil =>
    intro s s2 hr h
    cases h
    exact hr
  | cons le rest ih =>
    intro s s2 hr h
    obtain ⟨line, env⟩ := le
    rw [runLines] at h
    cases hl : loopBody line env s with
    | running s1 =>
      rw [hl] at h
      exact ih s1 s2 (jidsOrdered_step line env s s1 hr hl) h
    | exited c s1 => rw [hl] at h; cases h
    | replaced s1 => rw [hl] at h; cases h
    | undefined => rw [hl] at h; cases h

theorem filter_jid_le_one : ∀ (l : List ProcInfo) (j : Int),
    List.Pairwise (fun a b => a < b) (l.map ProcInfo.jid) →
    (l.filter (fun p => decide (p.jid = j))).length ≤ 1 := by
  intro l
  induction l with
  | nil => intro j _; simp
  | cons p ps ih =>
    intro j h
    rw [List.map_cons, List.pairwise_cons] at h
    obtain ⟨h1, h2⟩ := h
    by_cases e : p.jid = j
    · have hnone : ps.filter (fun q => decide (q.jid = j)) = [] := by
        rw [List.filter_eq_nil_iff]
        intro q hq
        have := h1 q.jid (List.mem_map.mpr ⟨q, hq, rfl⟩)
        simp
        omega
      rw [List.filter_cons, if_pos (by simpa using e), hnone]
      simp
    · rw [List.filter_cons, if_neg (by simpa using e)]
      exact ih j h2

/-! ### The read loop: buffer capacity and the range of the counter -/

theorem loopBody_of_capacity (line : String) (env : Env) (s : Shell)
    (hcap : (tokenize line).length < MAX_LEN / 2) :
    loopBody line env s
      = dispatch (tokenize line) env
          { s with trace := s.trace
              ++ (if s.isBatchMode = 0 then [Event.write 1 "mysh> "] else [])
              ++ (if s.isBatchMode = 1 then [Event.write 1 line] else []) } := by
  unfold loopBody
  dsimp only
  rw [if_neg (Nat.not_le.mpr hcap)]
  congr 1
  by_cases h0 : s.isBatchMode = 0
  · have h1 : ¬ s.isBatchMode = 1 := by omega
    simp [h0, Shell.emit]
  · by_cases h1 : s.isBatchMode = 1
    · simp [h1, Shell.emit]
    · simp [h0, h1]

theorem loopBody_over_capacity (line : String) (env : Env) (s : Shell)
    (hcap : MAX_LEN / 2 ≤ (tokenize line).length) :
    loopBody line env s = Outcome.undefined := by
  unfold loopBody
  dsimp only
  rw [if_pos hcap]

theorem runLines_counter : ∀ (input : List (String × Env)) (s s2 : Shell),
    runLines input s = Outcome.running s2 →
    s.jobId ≤ s2.jobId ∧ s2.jobId ≤ s.jobId + (input.length : Int) := by
  intro input
  induction input with
  | nil =>
    intro s s2 h
    cases h
    simp
  | cons le rest ih =>
    intro s s2 h
    obtain ⟨line, env⟩ := le
    rw [runLines] at h
    cases hl : loopBody line env s with
    | running s1 =>
      rw [hl] at h
      obtain ⟨_, hcase⟩ := loopBody_running line env s s1 hl
      obtain ⟨h1, h2⟩ := ih s1 s2 h
      rw [List.length_cons]
      push_cast
      rcases hcase with ⟨e, _⟩ | ⟨e, _⟩ <;> constructor <;> omega
    | exited c s1 => rw [hl] at h; cases h
    | replaced s1 => rw [hl] at h; cases h
    | undefined => rw [hl] at h; cases h

theorem dispatch_kill_iff (buffer : List String) (env : Env) (s : Shell) :
    dispatch buffer env s
        = Outcome.exited 0 { s with head := [], trace := s.trace ++ [Event.write 1 "exit\n"] }
      ↔ buffer[0]? = some "&" := by
  constructor
  · intro h
    by_contra hk
    obtain ⟨_, hcase⟩ := dispatch_exited buffer env s _ 0 hk h
    rcases hcase with ⟨hc, _⟩ | ⟨_, ht⟩ | ⟨t, ht, _⟩
    · exact absurd hc (by decide)
    · have ht2 : ([Event.write 1 "exit\n"] : List Event)
          = (if s.isBatchMode = 1 then [Event.fclose] else []) :=
        List.append_cancel_left ht
      split at ht2 <;> simp at ht2
    · have ht2 : ([Event.write 1 "exit\n"] : List Event) = Event.fork env.forkRet :: t :=
        List.append_cancel_left ht
      simp at ht2
  · intro hk
    exact dispatch_kill buffer env s hk

/-! ### `jobs`: the record whose check reports the exit -/

theorem removeBgProcess_split (pid : Int) (p : ProcInfo) (rest : List ProcInfo)
    (hp : p.pid = pid) : ∀ (kept : List ProcInfo),
    ∃ kept2, List.Sublist kept2 (kept ++ [p])
      ∧ removeBgProcess pid (kept ++ p :: rest) = kept2 ++ rest := by
  intro kept
  induction kept with
  | nil =>
    refine ⟨[], List.nil_sublist _, ?_⟩
    simp [removeBgProcess, hp]
  | cons q qs ih =>
    by_cases hq : q.pid = pid
    · refine ⟨qs ++ [p], List.sublist_cons_self q _, ?_⟩
      rw [List.cons_append, removeBgProcess, if_pos hq]
      simp
    · obtain ⟨k2, hk2, he⟩ := ih
      refine ⟨q :: k2, List.Sublist.cons₂ q hk2, ?_⟩
      rw [List.cons_append, removeBgProcess, if_neg hq, he]
      rfl

theorem reapLoop_removes (poll : Nat → WaitOutcome) (r : ProcInfo) :
    ∀ (todo : List ProcInfo) (k i : Nat) (s : Shell) (kept : List ProcInfo),
    s.head = kept ++ todo → todo[i]? = some r → observedExit poll (k + i) = true →
    (∀ q ∈ kept, q.pid ≠ r.pid) → (∀ q ∈ todo.take i, q.pid ≠ r.pid) →
    List.Sublist (reapLoop poll k todo s).head (kept ++ todo.take i ++ todo.drop (i + 1)) := by
  intro todo
  induction todo with
  | nil => intro k i s kept _ h; simp at h
  | cons p ps ih =>
    intro k i s kept hs hr ho hk ht
    cases i with
    | zero =>
      simp at hr
      subst hr
      have ho2 : (poll k).ret > 0 ∧ (poll k).exited = true := by
        unfold observedExit at ho
        simpa using ho
      unfold reapLoop
      dsimp only
      rw [if_pos ho2.1, if_pos ho2.2]
      have h3 : ∀ s2 : Shell, s2.head = kept ++ ps →
          List.Sublist (reapLoop poll (k + 1) ps s2).head (kept ++ ps) := by
        intro s2 he
        have h4 := (reapLoop_frame poll ps (k + 1) s2).2.2.1
        rw [he] at h4
        exact h4
      simp only [List.take_zero, List.append_nil, Nat.zero_add, List.drop_succ_cons,
        List.drop_zero]
      apply h3
      show removeBgProcess p.pid s.head = kept ++ ps
      rw [hs]
      exact removeBgProcess_skip p.pid ps kept p hk rfl
    | succ n =>
      have hr2 : ps[n]? = some r := by simpa using hr
      have hpr : p.pid ≠ r.pid := ht p (by simp)
      have key : ∀ s2 : Shell, (∃ kept2, List.Sublist kept2 (kept ++ [p]) ∧ s2.head = kept2 ++ ps) →
          List.Sublist (reapLoop poll (k + 1) ps s2).head
            (kept ++ (p :: ps).take (n + 1) ++ (p :: ps).drop (n + 1 + 1)) := by
        intro s2 hex
        obtain ⟨kept2, hsub, he⟩ := hex
        have h4 := ih (k + 1) n s2 kept2 he hr2
          (by rw [show k + 1 + n = k + (n + 1) by omega]; exact ho)
          (by
            intro q hq
            have := hsub.subset hq
            rcases List.mem_append.mp this with h5 | h5
            · exact hk q h5
            · simp at h5
              rw [h5]
              exact hpr)
          (by
            intro q hq
            exact ht q (by simp [hq]))
        refine h4.trans ?_
        have : kept ++ (p :: ps).take (n + 1) ++ (p :: ps).drop (n + 1 + 1)
            = (kept ++ [p]) ++ (ps.take n ++ ps.drop (n + 1)) := by simp
        rw [this, List.append_assoc]
        exact List.Sublist.append hsub (List.Sublist.refl _)
      unfold reapLoop
      dsimp only
      apply key
      by_cases h1 : (poll k).ret > 0
      · rw [if_pos h1]
        by_cases h2 : (poll k).exited = true
        · rw [if_pos h2]
          obtain ⟨k2, hk2, he⟩ := removeBgProcess_split p.pid p ps rfl kept
          refine ⟨k2, hk2, ?_⟩
          show removeBgProcess p.pid s.head = k2 ++ ps
          rw [hs]
          exact he
        · rw [if_neg h2]
          exact ⟨kept ++ [p], List.Sublist.refl _, by show s.head = _; rw [hs]; simp⟩
      · rw [if_neg h1]
        exact ⟨kept ++ [p], List.Sublist.refl _, by show s.head = _; rw [hs]; simp⟩

theorem jobsCommand_removes (poll : Nat → WaitOutcome) (s : Shell) (i : Nat) (r : ProcInfo)
    (hr : s.head[i]? = some r) (hexit : observedExit poll i = true)
    (hfirst : ∀ q ∈ s.head.take i, q.pid ≠ r.pid) :
    List.Sublist (jobsCommand poll s).head (s.head.take i ++ s.head.drop (i + 1)) := by
  have h := reapLoop_removes poll r s.head 0 i s [] rfl hr (by rw [Nat.zero_add]; exact hexit)
    (fun q hq => by simp at hq) hfirst
  unfold jobsCommand
  dsimp only
  rw [printLoop_spec]
  simpa using h

theorem jid_ne_of_removed (l : List ProcInfo) (i : Nat) (r : ProcInfo)
    (hr : l[i]? = some r) (hjid : (l.map ProcInfo.jid).Nodup) :
    ∀ q ∈ l.take i ++ l.drop (i + 1), q.jid ≠ r.jid := by
  have hi : i < l.length := by
    by_contra hge
    rw [List.getElem?_eq_none (by omega)] at hr
    cases hr
  have hsplit : l = l.take i ++ r :: l.drop (i + 1) := by
    have h1 : l[i] = r := by
      have := List.getElem?_eq_getElem hi
      rw [this] at hr
      exact Option.some.inj hr
    rw [← h1, ← List.drop_eq_getElem_cons hi, List.take_append_drop]
  rw [hsplit, List.map_append, List.map_cons] at hjid
  have h2 := List.nodup_middle.mp hjid
  rw [List.nodup_cons] at h2
  intro q hq e
  apply h2.1
  rw [← e, ← List.map_append]
  exact List.mem_map.mpr ⟨q, hq, rfl⟩

/-- When the pids in the registry are pairwise distinct, `jobsCommand` leaves exactly
the records whose own check did not report an exit and prints one line for each. -/
theorem jobsCommand_reaps (poll : Nat → WaitOutcome) (s : Shell)
    (hpid : (s.head.map ProcInfo.pid).Nodup) (hrep : ∀ p ∈ s.head, p.Representable) :
    (jobsCommand poll s).head = survivors poll 0 s.head
      ∧ (jobsCommand poll s).jobId = s.jobId
      ∧ (jobsCommand poll s).trace
          = s.trace ++ s.head.map (fun p => Event.waitpid p.pid WaitOptions.nohang)
            ++ (survivors poll 0 s.head).map
                (fun p => Event.write 1 (toString p.jid ++ " : " ++ p.line ++ "\n"))
      ∧ written 1 (jobsCommand poll s).trace
          = written 1 s.trace
            ++ (survivors poll 0 s.head).map (fun p => toString p.jid ++ " : " ++ p.line ++ "\n")
      ∧ written 2 (jobsCommand poll s).trace = written 2 s.trace := by
  have hhead := jobsCommand_head_distinct poll s hpid
  obtain ⟨h1, _, _, h4⟩ := jobsCommand_frame poll s
  have hlines : (survivors poll 0 s.head).map (fun p => Event.write 1 (jobLine p))
      = (survivors poll 0 s.head).map
          (fun p => Event.write 1 (toString p.jid ++ " : " ++ p.line ++ "\n")) := by
    apply List.map_congr_left
    intro p hp
    rw [jobLine_fits p (hrep p ((survivors_sublist poll s.head 0).subset hp))]
  rw [hhead, hlines] at h4
  refine ⟨hhead, h1, h4, ?_, ?_⟩
  · rw [h4, written_append, written_append, written_polls, written_lines]
    simp
  · rw [h4, written_append, written_append, written_polls]
    have : written 2 ((survivors poll 0 s.head).map
        (fun p => Event.write 1 (toString p.jid ++ " : " ++ p.line ++ "\n"))) = [] := by
      generalize survivors poll 0 s.head = l
      induction l with
      | nil => rfl
      | cons p ps ih => simpa [written] using ih
    rw [this]
    simp

/-! ### The text of a `jobs` line determines the jid -/

theorem digitChar_value (k : Nat) (h : k < 10) :
    (Nat.digitChar k).toNat - 48 = k ∧ Nat.digitChar k ≠ ' ' := by
  interval_cases k <;> decide

theorem toDigitsCore_value : ∀ (fuel n : Nat) (ds : List Char), n < fuel →
    ∃ pre, Nat.toDigitsCore 10 fuel n ds = pre ++ ds
      ∧ pre.foldl (fun v c => 10 * v + (c.toNat - 48)) 0 = n ∧ ' ' ∉ pre := by
  intro fuel
  induction fuel with
  | zero => intro n ds h; omega
  | succ f ih =>
    intro n ds h
    obtain ⟨hv, hs⟩ := digitChar_value (n % 10) (Nat.mod_lt n (by decide))
    unfold Nat.toDigitsCore
    dsimp only
    by_cases h0 : n / 10 = 0
    · rw [if_pos h0]
      refine ⟨[Nat.digitChar (n % 10)], rfl, ?_, ?_⟩
      · simp only [List.foldl_cons, List.foldl_nil]
        omega
      · simpa using hs.symm
    · rw [if_neg h0]
      obtain ⟨pre, h1, h2, h3⟩ := ih (n / 10) (Nat.digitChar (n % 10) :: ds) (by omega)
      refine ⟨pre ++ [Nat.digitChar (n % 10)], by rw [h1]; simp, ?_, ?_⟩
      · rw [List.foldl_append, h2]
        simp only [List.foldl_cons, List.foldl_nil]
        omega
      · simp only [List.mem_append, List.mem_singleton, not_or]
        exact ⟨h3, hs.symm⟩

theorem repr_value (n : Nat) : decimalValue (Nat.repr n) = n ∧ ' ' ∉ (Nat.repr n).data := by
  obtain ⟨pre, h1, h2, h3⟩ := toDigitsCore_value (n + 1) n [] (by omega)
  have e : (Nat.repr n).data = pre := by
    show (Nat.toDigitsCore 10 (n + 1) n []) = pre
    rw [h1]
    simp
  unfold decimalValue
  rw [e]
  exact ⟨h2, h3⟩

theorem append_space_inj : ∀ (d1 d2 t1 t2 : List Char), ' ' ∉ d1 → ' ' ∉ d2 →
    d1 ++ ' ' :: t1 = d2 ++ ' ' :: t2 → d1 = d2 := by
  intro d1
  induction d1 with
  | nil =>
    intro d2 t1 t2 _ h2 h
    cases d2 with
    | nil => rfl
    | cons c cs =>
      simp at h
      exact absurd (by rw [← h.1]; simp) h2
  | cons c cs ih =>
    intro d2 t1 t2 h1 h2 h
    cases d2 with
    | nil =>
      simp at h
      exact absurd (by rw [h.1]; simp) h1
    | cons c2 cs2 =>
      simp at h
      rw [h.1, ih cs2 t1 t2 (fun hm => h1 (List.mem_cons_of_mem c hm))
        (fun hm => h2 (List.mem_cons_of_mem c2 hm)) h.2]

theorem jobLine_data (p : ProcInfo) (a : Nat) (ha : p.jid = (a : Int)) (hfit : a < 10 ^ 10) :
    ∃ tail, (jobLine p).data = (Nat.repr a).data ++ ' ' :: tail := by
  have hl : (Nat.repr a).data.length ≤ 10 := Nat.repr_length a 10 (by decide) hfit
  have e : toString p.jid = Nat.repr a := by rw [ha]; rfl
  unfold jobLine snprintf
  rw [e]
  simp only [String.data_append]
  rw [List.append_assoc, List.append_assoc, List.cons_append, List.take_append_eq_append_take,
    List.take_of_length_le (by omega)]
  obtain ⟨m, hm⟩ : ∃ m, 1000 - 1 - (Nat.repr a).data.length = m + 1 := ⟨998 - (Nat.repr a).data.length, by omega⟩
  rw [hm, List.take_succ_cons]
  exact ⟨_, rfl⟩

theorem jobLine_jid (p q : ProcInfo) (hp : 0 ≤ p.jid ∧ p.jid ≤ 2147483647)
    (hq : 0 ≤ q.jid ∧ q.jid ≤ 2147483647) (h : jobLine p = jobLine q) : p.jid = q.jid := by
  obtain ⟨a, ha⟩ := Int.eq_ofNat_of_zero_le hp.1
  obtain ⟨b, hb⟩ := Int.eq_ofNat_of_zero_le hq.1
  obtain ⟨t1, h1⟩ := jobLine_data p a ha (by omega)
  obtain ⟨t2, h2⟩ := jobLine_data q b hb (by omega)
  rw [h, h2] at h1
  have e := append_space_inj _ _ _ _ (repr_value b).2 (repr_value a).2 h1
  have e2 : decimalValue (Nat.repr b) = decimalValue (Nat.repr a) := by
    unfold decimalValue
    rw [e]
  rw [(repr_value a).1, (repr_value b).1] at e2
  rw [ha, hb, e2]

theorem jidsOrdered_jobsCommand (poll : Nat → WaitOutcome) (s : Shell) (h : JidsOrdered s) :
    JidsOrdered (jobsCommand poll s) := by
  obtain ⟨hp, hb, hc⟩ := h
  obtain ⟨e1, _, e3, _⟩ := jobsCommand_frame poll s
  refine ⟨hp.sublist (e3.map ProcInfo.jid), ?_, by rw [e1]; exact hc⟩
  intro p hp1
  rw [e1]
  exact hb p (e3.subset hp1)

theorem jobLine_not_listed (r : ProcInfo) (l : List ProcInfo)
    (hr : 0 ≤ r.jid ∧ r.jid ≤ 2147483647)
    (hl : ∀ q ∈ l, 0 ≤ q.jid ∧ q.jid ≤ 2147483647) (hne : ∀ q ∈ l, q.jid ≠ r.jid) :
    jobLine r ∉ l.map jobLine := by
  intro hm
  obtain ⟨q, hq, e⟩ := List.mem_map.mp hm
  exact hne q hq (jobLine_jid q r (hl q hq) hr e)

/-! ## The claims -/

/-- Claim C1. On a vector of `len` tokens without NULL entries `isRedirection` returns a
value: 0 exactly when no token is `>`; 1 exactly when there is a single `>` and it sits at
index `len - 2` of at least three tokens, which is to say that at least one token
precedes it and exactly one token follows it; and -1 exactly in every other case. -/
theorem isRedirection_contract (toks : List String) :
    ∃ r, isRedirection (toks.map some) toks.length = some r ∧
      (r.ret = 0 ↔ ">" ∉ toks) ∧
      (r.ret = 1 ↔ SingleRedirect toks) ∧
      (r.ret = -1 ↔ (">" ∈ toks ∧ ¬ SingleRedirect toks)) ∧
      (SingleRedirect toks ↔
        ∃ pre file, pre ≠ [] ∧ ">" ∉ pre ∧ file ≠ ">" ∧ toks = pre ++ [">", file]) := by
  have hsplit := singleRedirect_iff_split toks
  suffices hmain : ∃ r, isRedirection (toks.map some) toks.length = some r ∧
      (r.ret = 0 ↔ ">" ∉ toks) ∧ (r.ret = 1 ↔ SingleRedirect toks) ∧
      (r.ret = -1 ↔ (">" ∈ toks ∧ ¬ SingleRedirect toks)) by
    obtain ⟨r, h1, h2, h3, h4⟩ := hmain
    exact ⟨r, h1, h2, h3, h4, hsplit⟩
  clear hsplit
  by_cases h : ">" ∈ toks
  · obtain ⟨pre, post, rfl, hpre⟩ := exists_first_redirect toks h
    refine ⟨redirAt pre post, isRedirection_first pre post hpre, ?_⟩
    rw [singleRedirect_iff pre post hpre]
    rcases redirAt_ret pre post with ⟨hc, hr⟩ | ⟨hc, hr⟩
    · rw [hr]
      simp [h, hc]
    · rw [hr]
      simp [h, hc]
  · refine ⟨⟨0, toks.map some, []⟩, isRedirection_absent toks h, ?_, ?_, ?_⟩
    · simp [h]
    · have : ¬ SingleRedirect toks := by
        rintro ⟨h1, _, _⟩
        rw [List.count_eq_zero.mpr h] at h1
        simp at h1
      simp [this]
    · simp [h]

/-- Claim C2, the code at a failing input. The tokens of `ls > a > b` hold two `>`; the
validator fails on them, but the text it writes is `Redirect Error: args > 1 after >`, not
`Redirect Error: More than 1 >`: at the first `>` more than one token is left, and the
function returns there, before the second `>` is counted. -/
theorem isRedirection_two_redirects :
    tokenize "ls > a > b" = ["ls", ">", "a", ">", "b"] ∧
    2 ≤ (tokenize "ls > a > b").count ">" ∧
    isRedirection ((tokenize "ls > a > b").map some) (tokenize "ls > a > b").length
      = some ⟨-1, [some "ls", some ">", some "a", some ">", some "b"],
          ["Redirect Error: args > 1 after >\n"]⟩ ∧
    "Redirect Error: args > 1 after >\n" ≠ "Redirect Error: More than 1 >\n" := by
  decide

/-- Claim C3. For a token of the line buffer holding a character outside `'0'..'9'`, and
any shell state, `waitCommand` appends exactly one system call to the trace, the write of
`Invalid JID <token>\n` to the error stream: nothing goes to standard output, no
`waitpid` is issued, and registry and counter are unchanged. -/
theorem waitCommand_non_digit (num : String) (s : Shell) (hlen : num.length < MAX_LEN)
    (h : ∃ c ∈ num.data, c < '0' ∨ '9' < c) :
    waitCommand num s
      = { s with trace := s.trace ++ [Event.write 2 ("Invalid JID " ++ num ++ "\n")] } := by
  unfold waitCommand
  rw [hasNonDigit_eq_true num.data h]
  have hfit : snprintf 1000 ("Invalid JID " ++ num ++ "\n") = "Invalid JID " ++ num ++ "\n" := by
    apply snprintf_fits
    simp only [String.length_append]
    unfold MAX_LEN at hlen
    have h1 : "Invalid JID ".length = 12 := by decide
    have h2 : "\n".length = 1 := by decide
    omega
  simp only [if_true, hfit]
  rfl

/-- Claim C3, witness: the token `0x`. -/
theorem waitCommand_non_digit_witness :
    "0x".length < MAX_LEN ∧ (∃ c ∈ "0x".data, c < '0' ∨ '9' < c) ∧
    waitCommand "0x" oneJob
      = { oneJob with trace := oneJob.trace ++ [Event.write 2 ("Invalid JID " ++ "0x" ++ "\n")] } :=
  ⟨by decide, ⟨'x', by decide, by decide⟩,
    waitCommand_non_digit "0x" oneJob (by decide) ⟨'x', by decide, by decide⟩⟩

/-- Claim C4, the code at a failing input. With job 0 registered and the counter at 0,
the all-digit token `4294967296` exceeds the counter, yet `atoi` wraps it to 0:
`waitCommand` issues a blocking `waitpid` on job 0 and writes
`JID 4294967296 terminated\n` to standard output, and nothing to the error stream. The
same happens in the shell run `sleep 1 &`, `wait 4294967296`. -/
theorem waitCommand_wraps :
    (∀ c ∈ "4294967296".data, '0' ≤ c ∧ c ≤ '9') ∧
    decimalValue "4294967296" = 4294967296 ∧ oneJob.jobId = 0 ∧ atoi "4294967296" = 0 ∧
    waitCommand "4294967296" oneJob
      = { oneJob with trace := [Event.waitpid 100 WaitOptions.blocking,
            Event.write 1 "JID 4294967296 terminated\n"] } ∧
    runLines [("sleep 1 &\n", sampleEnv), ("wait 4294967296\n", sampleEnv)] (Shell.fresh 0)
      = Outcome.running ⟨0, 0, [⟨0, 100, "sleep 1"⟩],
          [Event.write 1 "mysh> ", Event.fork 100, Event.write 1 "mysh> ",
           Event.waitpid 100 WaitOptions.blocking,
           Event.write 1 "JID 4294967296 terminated\n"]⟩ := by
  decide

/-- Claim C5. For an all-digit token of the line buffer whose value `v` is at most the
counter (a C `int`), `waitCommand` writes `JID <token> terminated\n`, the token verbatim,
to standard output and nothing else; it issues a blocking `waitpid`, on the pid of the
first record with jid `v`, exactly when such a record exists; registry and counter are
unchanged. -/
theorem waitCommand_in_range (num : String) (s : Shell) (hlen : num.length < MAX_LEN)
    (hdig : ∀ c ∈ num.data, '0' ≤ c ∧ c ≤ '9') (hint : s.jobId ≤ 2147483647)
    (hv : (decimalValue num : Int) ≤ s.jobId) :
    waitCommand num s
      = { s with trace := s.trace
            ++ (match s.head.find? (fun p => decide (p.jid = (decimalValue num : Int))) with
                | some p => [Event.waitpid p.pid WaitOptions.blocking]
                | none => [])
            ++ [Event.write 1 ("JID " ++ num ++ " terminated\n")] } := by
  unfold waitCommand
  rw [hasNonDigit_eq_false num.data hdig, atoi_digits num hdig, min_eq_left (by omega),
    wrapInt32_of_int _ (by omega) (by omega)]
  have hfit : snprintf 1000 ("JID " ++ num ++ " terminated\n")
      = "JID " ++ num ++ " terminated\n" := by
    apply snprintf_fits
    simp only [String.length_append]
    unfold MAX_LEN at hlen
    have h1 : "JID ".length = 4 := by decide
    have h2 : " terminated\n".length = 12 := by decide
    omega
  simp only [hfit, Bool.false_eq_true, if_false, gt_iff_lt, if_neg (not_lt.mpr hv),
    findJid_eq_find?]
  cases s.head.find? (fun p => decide (p.jid = (decimalValue num : Int))) with
  | none => simp [Shell.emit]
  | some p => simp [Shell.emit]

/-- Claim C5, witness: the token `00` (leading zero kept in the message) with job 0
registered. -/
theorem waitCommand_in_range_witness :
    "00".length < MAX_LEN ∧ (∀ c ∈ "00".data, '0' ≤ c ∧ c ≤ '9') ∧
    oneJob.jobId ≤ 2147483647 ∧ (decimalValue "00" : Int) ≤ oneJob.jobId ∧
    waitCommand "00" oneJob
      = { oneJob with trace := oneJob.trace
            ++ (match oneJob.head.find? (fun p => decide (p.jid = (decimalValue "00" : Int))) with
                | some p => [Event.waitpid p.pid WaitOptions.blocking]
                | none => [])
            ++ [Event.write 1 ("JID " ++ "00" ++ " terminated\n")] } :=
  ⟨by decide, by decide, by decide, by decide,
    waitCommand_in_range "00" oneJob (by decide) (by decide) (by decide) (by decide)⟩

/-- Claim C6, counterexample. The line `& &` has more than one token, ends in `&` and does
not start with `jobs` or `wait`, yet in a fresh shell it creates no job record: its first
token is the kill switch, the shell prints `exit` and terminates with code 0. -/
theorem background_jids_counterexample :
    tokenize "& &\n" = ["&", "&"] ∧
    BackgroundQualifying (tokenize "& &\n") ∧
    runLines [("& &\n", sampleEnv)] (Shell.fresh 0)
      = Outcome.exited 0 ⟨0, -1, [], [Event.write 1 "mysh> ", Event.write 1 "exit\n"]⟩ := by
  decide

/-- Claim C6, amended. From a fresh shell, for every sequence of `N` lines, `N` at most
2^31 so that the counter stays a C `int`, each of at most 255 tokens so that it fits
`buffer`, background-qualifying, not starting with `&` and not `exit &`, with every
`malloc` and `fork` succeeding: the shell keeps running, `N` records are registered,
their jids are `0, 1, .., N-1` in issuance order and the counter is `N - 1`, at most
`INT_MAX`; no process status enters into it. -/
theorem background_jids (batch : Int) (input : List (String × Env))
    (hN : input.length ≤ 2147483648)
    (h : ∀ le ∈ input, Background (tokenize le.1) ∧ (tokenize le.1).length < MAX_LEN / 2
      ∧ le.2.malloc ≠ none ∧ 0 < le.2.forkRet) :
    ∃ s, runLines input (Shell.fresh batch) = Outcome.running s
      ∧ s.head.length = input.length
      ∧ s.head.map ProcInfo.jid = (List.range input.length).map (fun (i : Nat) => (i : Int))
      ∧ s.jobId = (input.length : Int) - 1
      ∧ s.jobId ≤ 2147483647 := by
  obtain ⟨s, h1, h2, h3⟩ := runLines_background input (Shell.fresh batch) h
  have hj : (Shell.fresh batch).jobId = -1 := rfl
  have hh : (Shell.fresh batch).head = [] := rfl
  rw [hj, hh] at h3
  rw [hj] at h2
  have h4 : s.head.map ProcInfo.jid = (List.range input.length).map (fun (i : Nat) => (i : Int)) := by
    rw [h3]
    simp
  refine ⟨s, h1, ?_, h4, by rw [h2]; ring, by rw [h2]; omega⟩
  have := congrArg List.length h4
  simpa using this

/-- Claim C6, witness: the lines `sleep 1 &` and `ls -l &`. -/
theorem background_jids_witness :
    [("sleep 1 &\n", sampleEnv), ("ls -l &\n", sampleEnv)].length ≤ 2147483648 ∧
    (∀ le ∈ [("sleep 1 &\n", sampleEnv), ("ls -l &\n", sampleEnv)],
      Background (tokenize le.1) ∧ (tokenize le.1).length < MAX_LEN / 2
        ∧ le.2.malloc ≠ none ∧ 0 < le.2.forkRet) ∧
    ∃ s, runLines [("sleep 1 &\n", sampleEnv), ("ls -l &\n", sampleEnv)] (Shell.fresh 0)
        = Outcome.running s
      ∧ s.head.length = [("sleep 1 &\n", sampleEnv), ("ls -l &\n", sampleEnv)].length
      ∧ s.head.map ProcInfo.jid
          = (List.range [("sleep 1 &\n", sampleEnv), ("ls -l &\n", sampleEnv)].length).map
              (fun (i : Nat) => (i : Int))
      ∧ s.jobId = ([("sleep 1 &\n", sampleEnv), ("ls -l &\n", sampleEnv)].length : Int) - 1
      ∧ s.jobId ≤ 2147483647 :=
  have h : ∀ le ∈ [("sleep 1 &\n", sampleEnv), ("ls -l &\n", sampleEnv)],
      Background (tokenize le.1) ∧ (tokenize le.1).length < MAX_LEN / 2
        ∧ le.2.malloc ≠ none ∧ 0 < le.2.forkRet := by
    intro le hle
    simp only [List.mem_cons, List.mem_singleton, List.not_mem_nil, or_false] at hle
    rcases hle with rfl | rfl <;> decide
  ⟨by decide, h, background_jids 0 _ (by decide) h⟩

/-- Claim C7, the code at a failing input. After `a &`, `wait 0`, `b &` with the pid 5
handed out twice, the registry holds two records with pid 5. When the first check of
`jobs` reports no exit and the second does, `removeBgProcess(5)` unlinks the first record
with that pid: the record whose process was seen to have exited stays and is printed, and
the record whose check reported nothing is gone. -/
theorem jobsCommand_removes_other_record :
    runLines [("a &\n", envPid5), ("wait 0\n", envPid5), ("b &\n", envPid5)] (Shell.fresh 1)
      = Outcome.running ⟨1, 1, [⟨0, 5, "a"⟩, ⟨1, 5, "b"⟩],
          [Event.write 1 "a &\n", Event.fork 5, Event.write 1 "wait 0\n",
           Event.waitpid 5 WaitOptions.blocking, Event.write 1 "JID 0 terminated\n",
           Event.write 1 "b &\n", Event.fork 5]⟩ ∧
    observedExit racePoll 0 = false ∧ observedExit racePoll 1 = true ∧
    jobsCommand racePoll ⟨1, 1, [⟨0, 5, "a"⟩, ⟨1, 5, "b"⟩], []⟩
      = ⟨1, 1, [⟨1, 5, "b"⟩],
          [Event.waitpid 5 WaitOptions.nohang, Event.waitpid 5 WaitOptions.nohang,
           Event.write 1 "1 : b\n"]⟩ ∧
    survivors racePoll 0 [⟨0, 5, "a"⟩, ⟨1, 5, "b"⟩] = [⟨0, 5, "a"⟩] := by
  decide

/-- Claim C8, counterexample. Job 0 (`sleep 1 &`) has exited when `jobs` is invoked: the
check sees the exit, the record is removed before anything is printed, and the line
`0 : sleep 1` occurs zero times in the output of that invocation. -/
theorem jobs_exited_job_counterexample :
    runLines [("sleep 1 &\n", sampleEnv)] (Shell.fresh 0)
      = Outcome.running ⟨0, 0, [⟨0, 100, "sleep 1"⟩],
          [Event.write 1 "mysh> ", Event.fork 100]⟩ ∧
    observedExit exitedPoll 0 = true ∧
    jobsCommand exitedPoll oneJob = ⟨0, 0, [], [Event.waitpid 100 WaitOptions.nohang]⟩ ∧
    (written 1 (jobsCommand exitedPoll oneJob).trace).count "0 : sleep 1\n" = 0 := by
  decide

/-- Claim C8, amended. In a registry whose jids increase and lie between 0 and the
counter, itself a C `int` (as in every state the loop reaches), take a record whose
process has exited and is reported so by the status check of `jobs` (`waitpid` returns a
pid with `WIFEXITED`), no record linked before it holding the same pid. The record is
removed before anything is listed: what that `jobs` writes to standard output does not
contain the job's line; and after any further input lines that keep the counter a C
`int`, no record with that jid is in the registry and what a later `jobs` writes does not
contain the job's line either. -/
theorem jobs_drops_exited_job (poll : Nat → WaitOutcome) (s : Shell) (i : Nat)
    (r : ProcInfo) (hinv : JidsOrdered s) (hint : s.jobId ≤ 2147483647)
    (hr : s.head[i]? = some r) (hexit : observedExit poll i = true)
    (hfirst : ∀ q ∈ s.head.take i, q.pid ≠ r.pid) :
    (∀ q ∈ (jobsCommand poll s).head, q.jid ≠ r.jid) ∧
    (∃ lines, written 1 (jobsCommand poll s).trace = written 1 s.trace ++ lines
      ∧ jobLine r ∉ lines) ∧
    ∀ (input : List (String × Env)) (s2 : Shell),
      s.jobId + (input.length : Int) ≤ 2147483647 →
      runLines input (jobsCommand poll s) = Outcome.running s2 →
      (∀ q ∈ s2.head, q.jid ≠ r.jid) ∧
      ∀ (poll2 : Nat → WaitOutcome) (t : List Event),
        ∃ lines, written 1 (jobsCommand poll2 { s2 with trace := t }).trace
            = written 1 t ++ lines
          ∧ jobLine r ∉ lines := by
  have hinv1 := jidsOrdered_jobsCommand poll s hinv
  obtain ⟨hp, hb, _⟩ := hinv
  have hjid : (s.head.map ProcInfo.jid).Nodup := hp.imp (fun hab => ne_of_lt hab)
  have hrj : 0 ≤ r.jid ∧ r.jid ≤ 2147483647 := by
    have := hb r (List.getElem?_mem hr)
    exact ⟨this.1, by omega⟩
  have hgone : ∀ q ∈ (jobsCommand poll s).head, q.jid ≠ r.jid := by
    intro q hq
    exact jid_ne_of_removed s.head i r hr hjid q
      ((jobsCommand_removes poll s i r hr hexit hfirst).subset hq)
  have hcnt := (jobsCommand_frame poll s).1
  refine ⟨hgone, ⟨_, jobsCommand_written poll s, ?_⟩, ?_⟩
  · apply jobLine_not_listed r _ hrj _ hgone
    intro q hq
    have := hinv1.2.1 q hq
    exact ⟨this.1, by omega⟩
  · intro input s2 hrange hrun
    have hret : Retired r.jid (jobsCommand poll s) :=
      ⟨by rw [hcnt]; exact (hb r (List.getElem?_mem hr)).2, hgone⟩
    have hret2 := retired_run r.jid input _ s2 hret hrun
    have hinv2 := jidsOrdered_run input _ s2 hinv1 hrun
    have hcount := (runLines_counter input _ s2 hrun).2
    rw [hcnt] at hcount
    refine ⟨hret2.2, ?_⟩
    intro poll2 t
    have hsub := (jobsCommand_frame poll2 { s2 with trace := t }).2.2.1
    refine ⟨_, jobsCommand_written poll2 _, ?_⟩
    apply jobLine_not_listed r _ hrj
    · intro q hq
      have := hinv2.2.1 q (hsub.subset hq)
      exact ⟨this.1, by omega⟩
    · intro q hq
      exact hret2.2 q (hsub.subset hq)

/-- Claim C8, witness: of two jobs the second has exited; `jobs` removes it and lists the
first only, and nothing later brings the line of job 1 back. -/
theorem jobs_drops_exited_job_witness :
    JidsOrdered twoJobs ∧ twoJobs.jobId ≤ 2147483647 ∧
    twoJobs.head[1]? = some ⟨1, 101, "sleep 2"⟩ ∧
    observedExit secondExitedPoll 1 = true ∧
    (∀ q ∈ twoJobs.head.take 1, q.pid ≠ 101) ∧
    jobLine ⟨1, 101, "sleep 2"⟩ = "1 : sleep 2\n" ∧
    jobsCommand secondExitedPoll twoJobs
      = ⟨0, 1, [⟨0, 100, "sleep 1"⟩],
          [Event.waitpid 100 WaitOptions.nohang, Event.waitpid 101 WaitOptions.nohang,
           Event.write 1 "0 : sleep 1\n"]⟩ ∧
    (∃ lines, written 1 (jobsCommand secondExitedPoll twoJobs).trace
        = written 1 twoJobs.trace ++ lines
      ∧ jobLine ⟨1, 101, "sleep 2"⟩ ∉ lines) ∧
    ∀ (input : List (String × Env)) (s2 : Shell),
      twoJobs.jobId + (input.length : Int) ≤ 2147483647 →
      runLines input (jobsCommand secondExitedPoll twoJobs) = Outcome.running s2 →
      (∀ q ∈ s2.head, q.jid ≠ 1) ∧
      ∀ (poll2 : Nat → WaitOutcome) (t : List Event),
        ∃ lines, written 1 (jobsCommand poll2 { s2 with trace := t }).trace
            = written 1 t ++ lines
          ∧ jobLine ⟨1, 101, "sleep 2"⟩ ∉ lines :=
  have hinv : JidsOrdered twoJobs := by
    unfold JidsOrdered
    decide
  have h := jobs_drops_exited_job secondExitedPoll twoJobs 1 ⟨1, 101, "sleep 2"⟩ hinv
    (by decide) (by decide) (by decide) (by decide)
  ⟨hinv, by decide, by decide, by decide, by decide, by decide, by decide, h.2.1, h.2.2⟩

/-- Claim C9. In a fresh shell, a line whose tokens are `t1 .. tn &` (`n >= 1`, `t1` none
of `jobs`, `wait`, `exit`, `&`; at most 255 tokens with the `&`, so that they fit
`buffer`; the joined text fitting `line[512]`) whose `malloc` and `fork` succeed, followed
by the line `jobs` while the child runs (`waitpid` returns 0): the record holds the tokens
before `&` joined by single spaces; after its prompt or echo the second pass makes the
status check and writes exactly the line `0 : t1 .. tn\n`; and no blocking `waitpid` is
issued in either pass. -/
theorem background_then_jobs (batch : Int) (line1 line2 : String) (ts : List String)
    (env1 env2 : Env)
    (h1 : tokenize line1 = ts ++ ["&"]) (h2 : tokenize line2 = ["jobs"])
    (hne : ts ≠ [])
    (hfirst : ts[0]? ≠ some "jobs" ∧ ts[0]? ≠ some "wait" ∧ ts[0]? ≠ some "exit"
      ∧ ts[0]? ≠ some "&")
    (hcap : ts.length + 1 < MAX_LEN / 2)
    (hlen : (" ".intercalate ts).length < MAX_LEN)
    (hm : env1.malloc ≠ none) (hf : 0 < env1.forkRet) (hrun : (env2.poll 0).ret = 0) :
    ∃ s1 s2, loopBody line1 env1 (Shell.fresh batch) = Outcome.running s1
      ∧ loopBody line2 env2 s1 = Outcome.running s2
      ∧ s1.head = [⟨0, env1.forkRet, " ".intercalate ts⟩]
      ∧ s1.trace = (if batch = 0 then [Event.write 1 "mysh> "] else [])
          ++ (if batch = 1 then [Event.write 1 line1] else [])
          ++ [Event.fork env1.forkRet]
      ∧ s2.head = s1.head
      ∧ s2.trace = s1.trace
          ++ (if batch = 0 then [Event.write 1 "mysh> "] else [])
          ++ (if batch = 1 then [Event.write 1 line2] else [])
          ++ [Event.waitpid env1.forkRet WaitOptions.nohang,
              Event.write 1 ("0 : " ++ " ".intercalate ts ++ "\n")]
      ∧ blockingWaits s2.trace = [] := by
  obtain ⟨t, rest, rfl⟩ := List.exists_cons_of_ne_nil hne
  obtain ⟨hj, hw, hx, ha⟩ := hfirst
  obtain ⟨⟨j, p⟩, hjp⟩ := Option.ne_none_iff_exists'.mp hm
  have hb : Background (t :: rest ++ ["&"]) := by
    refine ⟨⟨by simp, by simp, by simpa using hj, by simpa using hw⟩, by simpa using ha, ?_⟩
    intro e
    simp at e hx
    exact hx e.1
  have hline : jobLine ⟨0, env1.forkRet, " ".intercalate (t :: rest)⟩
      = "0 : " ++ " ".intercalate (t :: rest) ++ "\n" := by
    rw [jobLine_fits _ ⟨by show (-2147483648 : Int) ≤ 0; decide,
      by show (0 : Int) ≤ 2147483647; decide, hlen⟩]
    rfl
  have hc1 : (tokenize line1).length < MAX_LEN / 2 := by
    rw [h1, List.length_append]
    exact hcap
  have hc2 : (tokenize line2).length < MAX_LEN / 2 := by
    rw [h2]
    decide
  have e1 := loopBody_of_capacity line1 env1 (Shell.fresh batch) hc1
  rw [h1, dispatch_background _ env1 _ j p hb hjp hf] at e1
  have e2 : ∀ s1 : Shell, loopBody line2 env2 s1
      = Outcome.running (jobsCommand env2.poll
          { s1 with trace := s1.trace
              ++ (if s1.isBatchMode = 0 then [Event.write 1 "mysh> "] else [])
              ++ (if s1.isBatchMode = 1 then [Event.write 1 line2] else []) }) := by
    intro s1
    rw [loopBody_of_capacity line2 env2 s1 hc2, h2, dispatch_jobs]
  refine ⟨_, _, e1, e2 _, ?_, ?_, ?_, ?_, ?_⟩
  · rw [commandText_background]
    rfl
  · simp [Shell.fresh]
  · rw [commandText_background]
    simp [jobsCommand, reapLoop, printLoop, hrun, Shell.emit, Shell.fresh]
  · rw [commandText_background]
    simp [jobsCommand, reapLoop, printLoop, hrun, Shell.emit, Shell.fresh, hline]
  · rw [commandText_background]
    by_cases h0 : batch = 0
    · subst h0
      simp [jobsCommand, reapLoop, printLoop, hrun, Shell.emit, Shell.fresh, blockingWaits]
    · by_cases hb1 : batch = 1
      · subst hb1
        simp [jobsCommand, reapLoop, printLoop, hrun, Shell.emit, Shell.fresh, blockingWaits]
      · simp [jobsCommand, reapLoop, printLoop, hrun, Shell.emit, Shell.fresh, blockingWaits,
          h0, hb1]

/-- Claim C9, witness: `sleep 1 &` then `jobs` gives `0 : sleep 1`. -/
theorem background_then_jobs_witness :
    tokenize "sleep 1 &\n" = ["sleep", "1"] ++ ["&"] ∧ tokenize "jobs\n" = ["jobs"] ∧
    " ".intercalate ["sleep", "1"] = "sleep 1" ∧
    ∃ s1 s2, loopBody "sleep 1 &\n" sampleEnv (Shell.fresh 0) = Outcome.running s1
      ∧ loopBody "jobs\n" sampleEnv s1 = Outcome.running s2
      ∧ s1.head = [⟨0, sampleEnv.forkRet, " ".intercalate ["sleep", "1"]⟩]
      ∧ s1.trace = (if (0 : Int) = 0 then [Event.write 1 "mysh> "] else [])
          ++ (if (0 : Int) = 1 then [Event.write 1 "sleep 1 &\n"] else [])
          ++ [Event.fork sampleEnv.forkRet]
      ∧ s2.head = s1.head
      ∧ s2.trace = s1.trace
          ++ (if (0 : Int) = 0 then [Event.write 1 "mysh> "] else [])
          ++ (if (0 : Int) = 1 then [Event.write 1 "jobs\n"] else [])
          ++ [Event.waitpid sampleEnv.forkRet WaitOptions.nohang,
              Event.write 1 ("0 : " ++ " ".intercalate ["sleep", "1"] ++ "\n")]
      ∧ blockingWaits s2.trace = [] :=
  ⟨by decide, by decide, by decide,
    background_then_jobs 0 "sleep 1 &\n" "jobs\n" ["sleep", "1"] sampleEnv sampleEnv
      (by decide) (by decide) (by decide) (by decide) (by decide) (by decide) (by decide)
      (by decide) (by decide)⟩

/-- Claim C10. For a non-empty vector and a counter below `INT_MAX`, so that `jobId++`
stays within the C `int`: a command that is not a built-in form ends in a state whose
counter is one higher, in the parent, in the child and when `fork` fails, with or without
a job record; when `fork` succeeds control returns to the loop; a foreground dispatch
that returns leaves the registry as it was; `jobs` and `wait <arg>` return with the
counter unchanged. -/
theorem executeCommand_counter (cmds : List String) (cur : Option Nat) (env : Env)
    (s : Shell) (hne : cmds ≠ []) (hint : s.jobId < 2147483647) :
    (¬ IsBuiltin cmds →
      ∃ s1, (executeCommand cmds cmds.length cur env s).state? = some s1
        ∧ s1.jobId = s.jobId + 1 ∧ s1.jobId ≤ 2147483647) ∧
    (¬ IsBuiltin cmds → 0 < env.forkRet →
      ∃ s1, executeCommand cmds cmds.length cur env s = Outcome.running s1
        ∧ s1.jobId = s.jobId + 1 ∧ s1.jobId ≤ 2147483647) ∧
    (¬ IsBuiltin cmds → ∀ s1, executeCommand cmds cmds.length none env s = Outcome.running s1 →
      s1.head = s.head) ∧
    (cmds[0]? = some "jobs" →
      ∃ s1, executeCommand cmds cmds.length cur env s = Outcome.running s1
        ∧ s1.jobId = s.jobId) ∧
    (cmds[0]? = some "wait" → 2 ≤ cmds.length →
      ∃ s1, executeCommand cmds cmds.length cur env s = Outcome.running s1
        ∧ s1.jobId = s.jobId) := by
  refine ⟨?_, ?_, ?_, ?_, ?_⟩
  · intro hb
    rw [executeCommand_launch cmds cur env s hb]
    obtain ⟨s1, h1, h2⟩ := launch_counter cmds cur env s hne
    exact ⟨s1, h1, h2, by omega⟩
  · intro hb hf
    rw [executeCommand_launch cmds cur env s hb, launch_parent cmds cmds.length cur env s hf]
    cases cur with
    | none => exact ⟨_, rfl, rfl, by show s.jobId + 1 ≤ 2147483647; omega⟩
    | some k => exact ⟨_, rfl, rfl, by show s.jobId + 1 ≤ 2147483647; omega⟩
  · intro hb s1 h1
    rw [executeCommand_launch cmds none env s hb] at h1
    rcases Int.lt_trichotomy env.forkRet 0 with hf | hf | hf
    · unfold launch at h1
      dsimp only at h1
      rw [if_pos hf] at h1
      cases h1
    · unfold launch at h1
      dsimp only at h1
      rw [if_neg (by omega), if_pos hf] at h1
      obtain ⟨s2, h2, _⟩ := childBranch_ends cmds env
        ({ s with jobId := s.jobId + 1 }.emit (Event.fork env.forkRet)) hne
      rcases h2 with ⟨code, h2⟩ | h2
      · rw [h2] at h1; cases h1
      · rw [h2] at h1; cases h1
    · rw [launch_parent cmds cmds.length none env s hf] at h1
      cases h1
      rfl
  · intro hj
    have hx : cmds[0]? ≠ some "exit" := by rw [hj]; decide
    have hw : cmds[0]? ≠ some "wait" := by rw [hj]; decide
    unfold executeCommand
    rw [if_neg (fun e => hx e.1), if_neg (fun e => hw e.1), if_pos hj]
    exact ⟨_, rfl, (jobsCommand_frame env.poll s).1⟩
  · intro hw hl
    have hx : cmds[0]? ≠ some "exit" := by rw [hw]; decide
    unfold executeCommand
    rw [if_neg (fun e => hx e.1), if_pos ⟨hw, hl⟩]
    have h1 : cmds[1]? = some cmds[1] := List.getElem?_eq_getElem (by omega)
    rw [h1]
    exact ⟨_, rfl, (waitCommand_frame cmds[1] s).1⟩

/-- Claim C10, witness: `ls -l` in the foreground with one job registered. -/
theorem executeCommand_counter_witness :
    (["ls", "-l"] : List String) ≠ [] ∧ oneJob.jobId < 2147483647 ∧
    ¬ IsBuiltin ["ls", "-l"] ∧ 0 < sampleEnv.forkRet ∧
    (∃ s1, executeCommand ["ls", "-l"] (["ls", "-l"] : List String).length none sampleEnv oneJob
        = Outcome.running s1 ∧ s1.jobId = oneJob.jobId + 1 ∧ s1.jobId ≤ 2147483647) ∧
    (∀ s1, executeCommand ["ls", "-l"] (["ls", "-l"] : List String).length none sampleEnv oneJob
        = Outcome.running s1 → s1.head = oneJob.head) :=
  have h := executeCommand_counter ["ls", "-l"] none sampleEnv oneJob (by decide) (by decide)
  ⟨by decide, by decide, by decide, by decide, h.2.1 (by decide) (by decide),
    h.2.2.1 (by decide)⟩

/-- Claim C11, counterexample. The vector `sleep 1 &` meets the three conditions and does
not start with `&`, but when `malloc` returns NULL no record is created and nothing is
dispatched: the registry is freed and the shell exits with code 1. -/
theorem dispatch_registers_counterexample :
    BackgroundQualifying ["sleep", "1", "&"] ∧
    (["sleep", "1", "&"] : List String)[0]? ≠ some "&" ∧
    dispatch ["sleep", "1", "&"] failEnv oneJob
      = Outcome.exited 1 ⟨0, 0, [], []⟩ := by
  decide

/-- Claim C11, amended. For a non-empty vector the loop registers a record and strips the
last token only if the vector has more than one token, ends in `&` and starts with
neither `jobs` nor `wait` (nor `&`): otherwise it is the kill switch or the whole vector
is dispatched with no record, and no state it ends in has a record the registry did not
have. When the conditions hold and the first token is not `&`: if `malloc` succeeds, the
new record is appended at the registry tail and the command is dispatched with the
vector shortened by one and a pointer to that record; if `malloc` fails, the registry is
freed and the shell exits with code 1. -/
theorem dispatch_registers (buffer : List String) (env : Env) (s : Shell)
    (hne : buffer ≠ []) :
    (¬ (BackgroundQualifying buffer ∧ buffer[0]? ≠ some "&") →
      dispatch buffer env s
          = (if buffer[0]? = some "&" then
              Outcome.exited 0
                { s with head := [], trace := s.trace ++ [Event.write 1 "exit\n"] }
            else executeCommand buffer buffer.length none env s)
        ∧ ∀ s1, (dispatch buffer env s).state? = some s1 → List.Sublist s1.head s.head) ∧
    (BackgroundQualifying buffer → buffer[0]? ≠ some "&" →
      ∀ j p, env.malloc = some (j, p) →
        dispatch buffer env s
          = executeCommand (buffer.take (buffer.length - 1)) (buffer.length - 1)
              (some s.head.length) env
              { s with head := s.head ++ [⟨j, p, commandText buffer buffer.length⟩] }) ∧
    (BackgroundQualifying buffer → buffer[0]? ≠ some "&" → env.malloc = none →
      dispatch buffer env s = Outcome.exited 1 { s with head := [] }) := by
  refine ⟨?_, ?_, ?_⟩
  · intro hnot
    by_cases hk : buffer[0]? = some "&"
    · rw [if_pos hk, dispatch_kill buffer env s hk]
      refine ⟨rfl, ?_⟩
      intro s1 h1
      cases h1
      exact List.nil_sublist _
    · have hq : ¬ BackgroundQualifying buffer := fun hq => hnot ⟨hq, hk⟩
      rw [if_neg hk, dispatch_foreground buffer env s hne hk hq]
      exact ⟨rfl, fun s1 h1 => executeCommand_foreground_head buffer env s s1 hne h1⟩
  · intro hq hk j p hm
    rw [dispatch_qualifying buffer env s hk hq, hm]
    dsimp only
    have hl : (buffer.take (buffer.length - 1)).length = buffer.length - 1 := by
      rw [List.length_take]
      omega
    rw [hl]
  · intro hq hk hm
    rw [dispatch_qualifying buffer env s hk hq, hm]

/-- Claim C11, witness: `sleep 1 &` with one job already registered. -/
theorem dispatch_registers_witness :
    (["sleep", "1", "&"] : List String) ≠ [] ∧ BackgroundQualifying ["sleep", "1", "&"] ∧
    (["sleep", "1", "&"] : List String)[0]? ≠ some "&" ∧ sampleEnv.malloc = some (0, 0) ∧
    dispatch ["sleep", "1", "&"] sampleEnv oneJob
      = executeCommand ["sleep", "1"] 2 (some 1) sampleEnv
          { oneJob with head := oneJob.head ++ [⟨0, 0, "sleep 1"⟩] } :=
  ⟨by decide, by decide, by decide, rfl,
    (dispatch_registers ["sleep", "1", "&"] sampleEnv oneJob (by decide)).2.1
      (by decide) (by decide) 0 0 rfl⟩

/-- Claim C12. When `isRedirection` returns 1 the vector it leaves is the original with
entry `len - 2`, the `>`, replaced by NULL and nothing else changed: the argument vector
`execvp` sees is the tokens before the `>`, the last entry is still the original last
token, and the child closes descriptor 1, opens that token and calls `execvp` with the
first token and that argument vector. When it returns 0 the vector is unchanged. -/
theorem isRedirection_vector (toks : List String) (r : Redir)
    (h : isRedirection (toks.map some) toks.length = some r) :
    (r.ret = 1 →
      r.cmds = (toks.map some).set (toks.length - 2) none ∧
      toks[toks.length - 2]? = some ">" ∧
      argvOf r.cmds = toks.take (toks.length - 2) ∧
      ∃ file first, toks[toks.length - 1]? = some file ∧ toks[0]? = some first ∧
        r.cmds[toks.length - 1]? = some (some file) ∧
        ∀ (env : Env) (s : Shell),
          childBranch toks toks.length env s
            = if env.openRet = -1 then
                closeFreeExit 0
                  { s with trace := s.trace ++ [Event.close 1, Event.openFile file env.openRet] }
              else if env.execReturns then
                closeFreeExit 0
                  { s with trace := s.trace ++ [Event.close 1, Event.openFile file env.openRet,
                      Event.execvp first (toks.take (toks.length - 2)),
                      Event.write 2 first, Event.write 2 ": Command not found\n"] }
              else
                Outcome.replaced
                  { s with trace := s.trace ++ [Event.close 1, Event.openFile file env.openRet,
                      Event.execvp first (toks.take (toks.length - 2))] }) ∧
    (r.ret = 0 → r.cmds = toks.map some ∧ argvOf r.cmds = toks) := by
  by_cases hmem : ">" ∈ toks
  · obtain ⟨pre, post, rfl, hpre⟩ := exists_first_redirect toks hmem
    rw [isRedirection_first pre post hpre] at h
    have hr : r = redirAt pre post := (Option.some.inj h).symm
    subst hr
    rcases redirAt_ret pre post with ⟨⟨hp, f, rfl, hf⟩, _⟩ | ⟨_, hr⟩
    · refine ⟨fun _ => ?_, fun h0 => ?_⟩
      · have hall : redirAt pre [f] = ⟨1, pre.map some ++ [none, some f], []⟩ := by
          unfold redirAt
          simp [hp, hf]
        have hlen : (pre ++ [">", f]).length - 2 = pre.length := by simp
        have hlen1 : (pre ++ [">", f]).length - 1 = pre.length + 1 := by simp
        obtain ⟨t, ts, rfl⟩ := List.exists_cons_of_ne_nil hp
        rw [hall, hlen, hlen1]
        refine ⟨?_, ?_, ?_, f, t, ?_, ?_, ?_, ?_⟩
        · simp [List.set_append_right]
        · rw [List.getElem?_append_right (Nat.le_refl _)]
          simp
        · rw [List.take_left']
          · exact argvOf_tokens (t :: ts) [some f]
          · rfl
        · rw [List.getElem?_append_right (by omega)]
          simp
        · simp
        · have : (t :: ts).length + 1 = (List.map some (t :: ts)).length + 1 := by simp
          rw [this, List.getElem?_append_right (by omega)]
          simp
        · intro env s
          rw [List.take_left' rfl]
          have hch := childBranch_redirect (t :: ts) f env s hp hpre hf
          rw [hch]
          by_cases ho : env.openRet = -1
          · rw [if_pos ho, if_pos ho]
          · rw [if_neg ho, if_neg ho]
            have hx := execStep_cons t (ts.map some ++ [none, some f]) env
              { s with trace := s.trace ++ [Event.close 1, Event.openFile f env.openRet] }
            have hargv : argvOf (some t :: (ts.map some ++ [none, some f])) = t :: ts :=
              argvOf_tokens (t :: ts) [some f]
            rw [hargv] at hx
            have hshape : List.map some (t :: ts) ++ [none, some f]
                = some t :: (ts.map some ++ [none, some f]) := by simp
            rw [hshape, hx]
            split <;> simp
      · exfalso
        have hall : (redirAt pre [f]).ret = 1 := by
          unfold redirAt
          simp [hp, hf]
        rw [hall] at h0
        exact absurd h0 (by decide)
    · refine ⟨fun h1 => ?_, fun h0 => ?_⟩
      · rw [hr] at h1; exact absurd h1 (by decide)
      · rw [hr] at h0; exact absurd h0 (by decide)
  · rw [isRedirection_absent toks hmem] at h
    have hr : r = ⟨0, toks.map some, []⟩ := (Option.some.inj h).symm
    subst hr
    refine ⟨fun h1 => ?_, fun _ => ⟨rfl, argvOf_all toks⟩⟩
    simp at h1

/-- Claim C12, witness: the vector `ls -l > out`. -/
theorem isRedirection_vector_witness :
    isRedirection ((["ls", "-l", ">", "out"] : List String).map some) 4
      = some ⟨1, [some "ls", some "-l", none, some "out"], []⟩ ∧
    (⟨1, [some "ls", some "-l", none, some "out"], []⟩ : Redir).cmds
      = ((["ls", "-l", ">", "out"] : List String).map some).set 2 none ∧
    argvOf (⟨1, [some "ls", some "-l", none, some "out"], []⟩ : Redir).cmds = ["ls", "-l"] ∧
    childBranch ["ls", "-l", ">", "out"] 4 sampleEnv (Shell.fresh 0)
      = Outcome.replaced ⟨0, -1, [],
          [Event.close 1, Event.openFile "out" 3, Event.execvp "ls" ["ls", "-l"]]⟩ :=
  have h := isRedirection_vector ["ls", "-l", ">", "out"]
    ⟨1, [some "ls", some "-l", none, some "out"], []⟩ (by decide)
  ⟨by decide, (h.1 rfl).1, (h.1 rfl).2.2.1, by decide⟩

/-- Claim C14. For every shell state, handling the token vector of a line that is just
`&` writes exactly `exit\n` to standard output, leaves the registry empty, issues no
`waitpid` and ends the shell with code 0. Seen from the read loop the only other output
of the pass is the prompt (interactive) or the echo of the line (batch mode). -/
theorem kill_switch_line (env : Env) (s : Shell) :
    dispatch ["&"] env s
      = Outcome.exited 0 { s with head := [], trace := s.trace ++ [Event.write 1 "exit\n"] } ∧
    ∀ line, tokenize line = ["&"] →
      loopBody line env s
        = Outcome.exited 0
            { s with head := [],
                     trace := s.trace
                       ++ (if s.isBatchMode = 0 then [Event.write 1 "mysh> "] else [])
                       ++ (if s.isBatchMode = 1 then [Event.write 1 line] else [])
                       ++ [Event.write 1 "exit\n"] } := by
  refine ⟨dispatch_kill ["&"] env s rfl, ?_⟩
  intro line hline
  unfold loopBody
  dsimp only
  rw [hline, if_neg (by decide), dispatch_kill ["&"] env _ rfl]
  by_cases h0 : s.isBatchMode = 0
  · have h1 : ¬ s.isBatchMode = 1 := by omega
    simp [h0, Shell.emit]
  · by_cases h1 : s.isBatchMode = 1
    · simp [h1, Shell.emit]
    · simp [h0, h1]

/-- Claim C14, witness: the line `&` with one job registered, interactive mode. -/
theorem kill_switch_line_witness :
    tokenize "&\n" = ["&"] ∧
    loopBody "&\n" sampleEnv oneJob
      = Outcome.exited 0 ⟨0, 0, [], [Event.write 1 "mysh> ", Event.write 1 "exit\n"]⟩ :=
  ⟨by decide, ((kill_switch_line sampleEnv oneJob).2 "&\n" (by decide)).trans (by decide)⟩

/-- Claim C15, the code on the failing inputs. In batch mode the line `&` ends the shell
with the registry freed but without `fclose`, and so does a background line whose
`malloc` fails; the `exit` line and the end of input do call `fclose`. -/
theorem exit_without_fclose :
    loopBody "&\n" sampleEnv (Shell.fresh 1)
      = Outcome.exited 0 ⟨1, -1, [], [Event.write 1 "&\n", Event.write 1 "exit\n"]⟩ ∧
    Event.fclose ∉ [Event.write 1 "&\n", Event.write 1 "exit\n"] ∧
    loopBody "sleep 1 &\n" failEnv (Shell.fresh 1)
      = Outcome.exited 1 ⟨1, -1, [], [Event.write 1 "sleep 1 &\n"]⟩ ∧
    Event.fclose ∉ [Event.write 1 "sleep 1 &\n"] ∧
    loopBody "exit\n" sampleEnv (Shell.fresh 1)
      = Outcome.exited 0 ⟨1, -1, [], [Event.write 1 "exit\n", Event.fclose]⟩ ∧
    mainLoop [] (Shell.fresh 1) = Outcome.exited 0 ⟨1, -1, [], [Event.fclose]⟩ := by
  decide

/-- Claim C16. `removeBgProcess` deletes exactly the first record, in list order, whose
pid equals the argument (it is `eraseP` on that test): the records before it and after
it keep their order; when no record has that pid the registry is unchanged.
`addBgProcess` puts the new record behind all existing ones. -/
theorem registry_operations (pid : Int) (n : ProcInfo) (l : List ProcInfo) :
    removeBgProcess pid l = l.eraseP (fun p => decide (p.pid = pid)) ∧
    (∀ pre r post, l = pre ++ r :: post → (∀ q ∈ pre, q.pid ≠ pid) → r.pid = pid →
      removeBgProcess pid l = pre ++ post) ∧
    ((∀ q ∈ l, q.pid ≠ pid) → removeBgProcess pid l = l) ∧
    addBgProcess n l = l ++ [n] := by
  refine ⟨removeBgProcess_eq_eraseP pid l, ?_, removeBgProcess_absent pid l,
    addBgProcess_eq_append n l⟩
  intro pre r post hl hpre hr
  rw [hl]
  exact removeBgProcess_skip pid post pre r hpre hr

/-- Claim C16, witness: a registry with two records of pid 7. -/
theorem registry_operations_witness :
    removeBgProcess 7 [⟨0, 5, "a"⟩, ⟨1, 7, "b"⟩, ⟨2, 7, "c"⟩] = [⟨0, 5, "a"⟩, ⟨2, 7, "c"⟩] ∧
    removeBgProcess 9 [⟨0, 5, "a"⟩, ⟨1, 7, "b"⟩, ⟨2, 7, "c"⟩]
      = [⟨0, 5, "a"⟩, ⟨1, 7, "b"⟩, ⟨2, 7, "c"⟩] ∧
    addBgProcess ⟨3, 8, "d"⟩ [⟨0, 5, "a"⟩, ⟨1, 7, "b"⟩] = [⟨0, 5, "a"⟩, ⟨1, 7, "b"⟩, ⟨3, 8, "d"⟩] :=
  have h := registry_operations 7 ⟨3, 8, "d"⟩ [⟨0, 5, "a"⟩, ⟨1, 7, "b"⟩, ⟨2, 7, "c"⟩]
  have h9 := registry_operations 9 ⟨3, 8, "d"⟩ [⟨0, 5, "a"⟩, ⟨1, 7, "b"⟩, ⟨2, 7, "c"⟩]
  have ha := registry_operations 7 ⟨3, 8, "d"⟩ [⟨0, 5, "a"⟩, ⟨1, 7, "b"⟩]
  ⟨h.2.1 [⟨0, 5, "a"⟩] ⟨1, 7, "b"⟩ [⟨2, 7, "c"⟩] rfl (by decide) rfl,
    h9.2.2.1 (by decide), ha.2.2.2⟩

/-- Claim C18. In every state the read loop reaches from a fresh shell by at most 2^31
lines (each line launches at most one command, so the counter stays a C `int`), whatever
the lines and whatever the operating system answers, the jids in the registry increase
strictly in insertion order and each lies between 0 and the counter, itself at most
`INT_MAX`; so no two records share a jid and a lookup by jid matches at most one
record. -/
theorem reachable_jids (batch : Int) (input : List (String × Env)) (s : Shell)
    (hlines : input.length ≤ 2147483648)
    (h : runLines input (Shell.fresh batch) = Outcome.running s) :
    List.Pairwise (fun a b => a < b) (s.head.map ProcInfo.jid)
      ∧ (∀ p ∈ s.head, 0 ≤ p.jid ∧ p.jid ≤ s.jobId)
      ∧ s.jobId ≤ 2147483647
      ∧ (s.head.map ProcInfo.jid).Nodup
      ∧ ∀ j, (s.head.filter (fun p => decide (p.jid = j))).length ≤ 1 := by
  obtain ⟨h1, h2, _⟩ := jidsOrdered_run input (Shell.fresh batch) s (jidsOrdered_fresh batch) h
  have hc := (runLines_counter input (Shell.fresh batch) s h).2
  have hj : (Shell.fresh batch).jobId = -1 := rfl
  rw [hj] at hc
  refine ⟨h1, h2, by omega, ?_, fun j => filter_jid_le_one s.head j h1⟩
  exact h1.imp (fun hab => ne_of_lt hab)

/-- Claim C18, witness: `sleep 1 &`, `ls`, `sleep 2 &` leave jobs 0 and 2. -/
theorem reachable_jids_witness :
    [("sleep 1 &\n", sampleEnv), ("ls\n", sampleEnv), ("sleep 2 &\n", sampleEnv)].length
      ≤ 2147483648 ∧
    runLines [("sleep 1 &\n", sampleEnv), ("ls\n", sampleEnv), ("sleep 2 &\n", sampleEnv)]
        (Shell.fresh 0)
      = Outcome.running ⟨0, 2, [⟨0, 100, "sleep 1"⟩, ⟨2, 100, "sleep 2"⟩],
          [Event.write 1 "mysh> ", Event.fork 100, Event.write 1 "mysh> ", Event.fork 100,
           Event.waitpid 100 WaitOptions.blocking, Event.write 1 "mysh> ", Event.fork 100]⟩ ∧
    List.Pairwise (fun a b => a < b)
      (([⟨0, 100, "sleep 1"⟩, ⟨2, 100, "sleep 2"⟩] : List ProcInfo).map ProcInfo.jid) :=
  ⟨by decide, by decide,
    (reachable_jids 0
      [("sleep 1 &\n", sampleEnv), ("ls\n", sampleEnv), ("sleep 2 &\n", sampleEnv)]
      ⟨0, 2, [⟨0, 100, "sleep 1"⟩, ⟨2, 100, "sleep 2"⟩],
          [Event.write 1 "mysh> ", Event.fork 100, Event.write 1 "mysh> ", Event.fork 100,
           Event.waitpid 100 WaitOptions.blocking, Event.write 1 "mysh> ", Event.fork 100]⟩
      (by decide) (by decide)).1⟩

/-- Claim C19. For every input line of at most 255 tokens, so that they fit `buffer`: the
pass through the loop ends as the kill switch does (exit code 0, registry empty, counter
unchanged, and after the prompt or the echo of the line the trace longer by just the
write of `exit\n`, so no record, no `fork`, no `waitpid`) exactly when the first token of
the line is `&`, whatever follows; handling the token vector alone ends that way under
the same condition. -/
theorem kill_switch_iff (line : String) (env : Env) (s : Shell)
    (hcap : (tokenize line).length < MAX_LEN / 2) :
    (loopBody line env s
        = Outcome.exited 0
            { s with head := [],
                     trace := s.trace
                       ++ (if s.isBatchMode = 0 then [Event.write 1 "mysh> "] else [])
                       ++ (if s.isBatchMode = 1 then [Event.write 1 line] else [])
                       ++ [Event.write 1 "exit\n"] }
      ↔ (tokenize line)[0]? = some "&") ∧
    (dispatch (tokenize line) env s
        = Outcome.exited 0 { s with head := [], trace := s.trace ++ [Event.write 1 "exit\n"] }
      ↔ (tokenize line)[0]? = some "&") := by
  refine ⟨?_, dispatch_kill_iff (tokenize line) env s⟩
  rw [loopBody_of_capacity line env s hcap]
  exact dispatch_kill_iff (tokenize line) env _

/-- Claim C19, witness: the lines `& ls` and `& &` are kill switches, `ls &` is not. -/
theorem kill_switch_iff_witness :
    tokenize "& ls\n" = ["&", "ls"] ∧ tokenize "& &\n" = ["&", "&"] ∧
    loopBody "& ls\n" sampleEnv oneJob
      = Outcome.exited 0 ⟨0, 0, [], [Event.write 1 "mysh> ", Event.write 1 "exit\n"]⟩ ∧
    loopBody "& &\n" sampleEnv oneJob
      = Outcome.exited 0 ⟨0, 0, [], [Event.write 1 "mysh> ", Event.write 1 "exit\n"]⟩ ∧
    loopBody "ls &\n" sampleEnv oneJob
      ≠ Outcome.exited 0 ⟨0, 0, [], [Event.write 1 "mysh> ", Event.write 1 "exit\n"]⟩ :=
  ⟨by decide, by decide,
    (kill_switch_iff "& ls\n" sampleEnv oneJob (by decide)).1.mpr (by decide),
    (kill_switch_iff "& &\n" sampleEnv oneJob (by decide)).1.mpr (by decide),
    fun h => absurd ((kill_switch_iff "ls &\n" sampleEnv oneJob (by decide)).1.mp h)
      (by decide)⟩

/-- Claim C20. `isRedirection` writes `Redirect Error: More than 1 >` exactly when the
vector is some non-empty `>`-free tokens followed by `>` `>` (at least three tokens, the
last two `>`, no earlier `>`); every other vector with two or more `>` gets
`args > 1 after >` or `No file or command`; a failing call writes exactly one message
and a call that does not fail writes none. -/
theorem isRedirection_messages (toks : List String) :
    ∃ r, isRedirection (toks.map some) toks.length = some r ∧
      ("Redirect Error: More than 1 >\n" ∈ r.err ↔
        ∃ pre, pre ≠ [] ∧ ">" ∉ pre ∧ toks = pre ++ [">", ">"]) ∧
      (2 ≤ toks.count ">" → (¬ ∃ pre, pre ≠ [] ∧ ">" ∉ pre ∧ toks = pre ++ [">", ">"]) →
        r.err = ["Redirect Error: args > 1 after >\n"]
          ∨ r.err = ["Redirect Error: No file or command\n"]) ∧
      (r.ret = -1 → r.err.length = 1) ∧
      (r.ret ≠ -1 → r.err = []) := by
  by_cases h : ">" ∈ toks
  · obtain ⟨pre, post, rfl, hpre⟩ := exists_first_redirect toks h
    refine ⟨redirAt pre post, isRedirection_first pre post hpre, ?_, ?_, ?_, ?_⟩
    · rw [redirAt_err]
      constructor
      · intro hm
        by_cases h2 : 2 ≤ post.length
        · rw [if_pos h2] at hm
          simp at hm
        · rw [if_neg h2] at hm
          by_cases h3 : pre = [] ∨ post = []
          · rw [if_pos h3] at hm
            simp at hm
          · rw [if_neg h3] at hm
            by_cases h4 : post = [">"]
            · exact ⟨pre, fun e => h3 (Or.inl e), hpre, by rw [h4]⟩
            · rw [if_neg h4] at hm
              simp at hm
      · rintro ⟨pre2, hp2, hn2, e⟩
        have hsame : pre = pre2 ∧ post = [">"] := by
          have := List.append_eq_append_iff.mp e
          rcases this with ⟨a, h1, h2⟩ | ⟨a, h1, h2⟩
          · -- pre2 = pre ++ a, ">" :: post = a ++ [">", ">"]
            cases a with
            | nil =>
              simp at h1 h2
              exact ⟨h1.symm, h2⟩
            | cons x xs =>
              exfalso
              simp at h2
              apply hn2
              rw [h1, ← h2.1]
              simp
          · -- pre = pre2 ++ a, [">", ">"] = a ++ ">" :: post
            cases a with
            | nil =>
              simp at h1 h2
              exact ⟨h1, h2.symm⟩
            | cons x xs =>
              exfalso
              simp at h2
              apply hpre
              rw [h1, ← h2.1]
              simp
        obtain ⟨e1, e2⟩ := hsame
        subst e1
        rw [e2]
        simp [hp2]
    · intro hc hnot
      have hcnt : (pre ++ ">" :: post).count ">" = post.count ">" + 1 := by
        rw [List.count_append, List.count_eq_zero.mpr hpre]
        simp
      have hpost : ">" ∈ post := List.count_pos_iff.mp (by omega)
      rw [redirAt_err]
      by_cases h2 : 2 ≤ post.length
      · rw [if_pos h2]; exact Or.inl rfl
      · rw [if_neg h2]
        by_cases h3 : pre = [] ∨ post = []
        · rw [if_pos h3]; exact Or.inr rfl
        · exfalso
          apply hnot
          have hl : post.length = 1 := by
            have := List.length_pos_of_mem hpost
            omega
          obtain ⟨f, rfl⟩ := List.length_eq_one.mp hl
          simp at hpost
          exact ⟨pre, fun e => h3 (Or.inl e), hpre, by rw [hpost]⟩
    · intro hr
      rw [redirAt_err]
      by_cases h2 : 2 ≤ post.length
      · rw [if_pos h2]; rfl
      · rw [if_neg h2]
        by_cases h3 : pre = [] ∨ post = []
        · rw [if_pos h3]; rfl
        · rw [if_neg h3]
          by_cases h4 : post = [">"]
          · rw [if_pos h4]; rfl
          · exfalso
            unfold redirAt at hr
            rw [if_neg h2, if_neg h3, if_neg h4] at hr
            simp at hr
    · intro hr
      rcases redirAt_ret pre post with ⟨⟨hp, f, rfl, hf⟩, _⟩ | ⟨_, hr2⟩
      · rw [redirAt_err]
        simp [hp, Ne.symm hf]
        intro e
        exact hf e
      · exact absurd hr2 hr
  · refine ⟨⟨0, toks.map some, []⟩, isRedirection_absent toks h, ?_, ?_, ?_, ?_⟩
    · constructor
      · intro hm; simp at hm
      · rintro ⟨pre, _, _, e⟩
        exfalso
        apply h
        rw [e]
        simp
    · intro hc
      rw [List.count_eq_zero.mpr h] at hc
      omega
    · intro hr
      simp at hr
    · intro _
      rfl

end Mysh
